import Mathlib

/-!
Verification development for the SynaGraph core: a shallow embedding of the
capsule translation layer (`src/domain/capsule.rs`), the knowledge-node data
model (`src/domain/node.rs`), the in-memory repository backend
(`src/repository/in_memory.rs`), the Postgres repository backend
(`src/repository/postgres.rs`, with the SQL statements interpreted as
transitions on an explicit table state), and the capsule HTTP handlers
(`src/server/http.rs`).

Modelling conventions:
* `Uuid` is an opaque identifier, modelled as a natural number.
* `chrono::DateTime<Utc>` is modelled at whole-second granularity as an
  integer timestamp, so `Duration::seconds` and `num_seconds` are exact.
* Every call to `Utc::now()` and to the random generator `Uuid::new_v4()`
  becomes an explicit parameter of the embedded function.
* `f32` vector components are modelled as exact rationals; every concrete
  vector evaluated below has components whose products and sums are exact
  in `f32` as well, so the comparisons coincide.
* `serde_json::Value` payloads are modelled by the inductive `Json`: the
  structured values actually constructed and inspected by the embedded code
  paths appear as dedicated constructors, all other JSON is opaque.
-/

namespace SynaGraph

/-- UUIDs (`uuid::Uuid`), modelled as opaque naturals. -/
abbrev Uuid := Nat

/-- `chrono::DateTime<Utc>` / `chrono::Duration` at whole-second granularity. -/
abbrev Timestamp := Int

/-- Opaque JSON documents the embedded code never inspects
(artifact answer / metrics / metadata, generic node payloads). -/
abbrev RawJson := String

/-- `CapsuleProvenance` from `src/domain/capsule.rs`. -/
structure CapsuleProvenance where
  source : String
  hash : String
  version : Option String
  generated_at : Option Timestamp
deriving DecidableEq, Repr

/-- The `Default` impl for `CapsuleProvenance`. -/
def CapsuleProvenance.defaultRecord : CapsuleProvenance :=
  { source := "", hash := "", version := none, generated_at := none }

/-- `CapsulePolicy` from `src/domain/capsule.rs`. -/
structure CapsulePolicy where
  tenant : String
  phi : Bool
  pii : Bool
  region : Option String
  compliance_tags : List String
deriving DecidableEq, Repr

/-- `CapsuleArtifact` from `src/domain/capsule.rs`. -/
structure CapsuleArtifact where
  answer : RawJson
  policy : CapsulePolicy
  provenance : List CapsuleProvenance
  metrics : Option RawJson
  ttl_seconds : Option Int
  hash : String
  metadata : Option RawJson
deriving DecidableEq, Repr

/-- `CapsuleIngestRequest` from `src/domain/capsule.rs`. -/
structure CapsuleIngestRequest where
  key : String
  artifact : CapsuleArtifact
  expires_at : Option Timestamp
deriving DecidableEq, Repr

/-- `CapsuleLookupResponse` from `src/domain/capsule.rs`. -/
structure CapsuleLookupResponse where
  key : String
  artifact : CapsuleArtifact
  expires_at : Option Timestamp
  ttl_remaining_seconds : Option Int
deriving DecidableEq, Repr

/-- `serde_json::Value` restricted to the shapes the embedded flows construct
and inspect; everything else is `raw`. `capsule` is
`serde_json::to_value(CapsuleIngestRequest)` (serde round-trips this struct
losslessly), `policyBlob` / `provenanceBlob` are the `json!(...)` blobs stored
on the node by capsule ingest. -/
inductive Json where
  | raw (s : RawJson)
  | capsule (c : CapsuleIngestRequest)
  | policyBlob (p : CapsulePolicy)
  | provenanceBlob (l : List CapsuleProvenance)
deriving DecidableEq, Repr

/-- `KnowledgeNode` from `src/domain/node.rs`; the `f32` vector is modelled
over exact rationals. -/
structure KnowledgeNode where
  id : Uuid
  tenant_id : Uuid
  kind : String
  payload_json : Json
  vector : Option (List Rat)
  provenance : Option Json
  policy : Option Json
  created_at : Timestamp
  updated_at : Timestamp
deriving DecidableEq, Repr

/-- `KnowledgeNode::new`: the random `Uuid::new_v4()` and the `Utc::now()`
reading are the explicit parameters `freshId` and `now`. -/
def KnowledgeNode.new (freshId : Uuid) (now : Timestamp) (tenant_id : Uuid)
    (kind : String) (payload_json : Json) : KnowledgeNode :=
  { id := freshId
    tenant_id := tenant_id
    kind := kind
    payload_json := payload_json
    vector := none
    provenance := none
    policy := none
    created_at := now
    updated_at := now }

/-- `Uuid::new_v5(&Uuid::NAMESPACE_URL, bytes)`: a fixed deterministic
128-bit hash of the input byte string. Modelled as a deterministic encoding
of the string; determinism is the property the source relies on (spec design
note: any stable hash of the same inputs works), and the concrete inputs
compared below also hash to distinct UUIDs under the real function. -/
def uuidNewV5 (s : String) : Uuid :=
  s.data.foldl (fun a c => a * 1114112 + c.toNat + 1) 1

/-- `CapsuleArtifact::ensure_defaults`. -/
def CapsuleArtifact.ensure_defaults (a : CapsuleArtifact) : CapsuleArtifact :=
  if a.provenance.isEmpty then
    { a with provenance := [CapsuleProvenance.defaultRecord] }
  else a

/-- First TTL derivation step in `CapsuleLookupResponse::from_node`:
if `ttl_seconds` is absent and an expiry is present, derive
`(exp - updated_at).num_seconds().max(0)`. -/
def deriveTtl (c : CapsuleIngestRequest) (updated_at : Timestamp)
    (exp? : Option Timestamp) : CapsuleIngestRequest :=
  match c.artifact.ttl_seconds, exp? with
  | none, some exp =>
      { c with artifact := { c.artifact with ttl_seconds := some (max (exp - updated_at) 0) } }
  | _, _ => c

/-- `CapsuleLookupResponse::from_node`; `now` is the `Utc::now()` read for
the remaining-TTL computation. -/
def CapsuleLookupResponse.from_node (node : KnowledgeNode) (now : Timestamp) :
    Except String CapsuleLookupResponse :=
  match node.payload_json with
  | Json.capsule c0 =>
      let c1 := { c0 with artifact := c0.artifact.ensure_defaults }
      let c2 := if c1.artifact.policy.tenant = "" then
          { c1 with artifact := { c1.artifact with policy := { c1.artifact.policy with tenant := "default" } } }
        else c1
      let c3 := if c2.artifact.hash = "" then
          { c2 with artifact := { c2.artifact with hash := toString node.id } }
        else c2
      let c4 := deriveTtl c3 node.updated_at c3.expires_at
      let expires_at := match c4.expires_at with
        | some e => some e
        | none => c4.artifact.ttl_seconds.map (fun ttl => node.updated_at + ttl)
      let c5 := deriveTtl c4 node.updated_at expires_at
      let ttl_remaining_seconds := expires_at.map (fun ts => max (ts - now) 0)
      Except.ok
        { key := c5.key
          artifact := c5.artifact
          expires_at := expires_at
          ttl_remaining_seconds := ttl_remaining_seconds }
  | _ => Except.error "knowledge node payload is not a capsule"

/-- `CapsuleIngestRequest::into_node`; `freshId`/`now` feed the
`KnowledgeNode::new` call whose id is immediately overwritten by the stable
v5 id. -/
def CapsuleIngestRequest.into_node (c0 : CapsuleIngestRequest) (tenant_id : Uuid)
    (freshId : Uuid) (now : Timestamp) : Except String KnowledgeNode :=
  let c := { c0 with artifact := c0.artifact.ensure_defaults }
  if c.artifact.policy.tenant = "" then
    Except.error "capsule policy.tenant is required"
  else if c.artifact.hash = "" then
    Except.error "capsule artifact.hash is required"
  else
    let node := KnowledgeNode.new freshId now tenant_id "capsule" (Json.capsule c)
    let stable_id := uuidNewV5 (c.key ++ ":" ++ c.artifact.hash)
    Except.ok
      { node with
          id := stable_id
          policy := some (Json.policyBlob c.artifact.policy)
          provenance := some (Json.provenanceBlob c.artifact.provenance) }

/-- `UpsertOutcome` from `src/repository/mod.rs`. -/
inductive UpsertOutcome where
  | created
  | updated
deriving DecidableEq, Repr

/-- `OutboxKind` from `src/repository/mod.rs`. -/
inductive OutboxKind where
  | upsert
  | supersededBy
  | revokeCapsule
deriving DecidableEq, Repr

/-- `OutboxKind::as_str`. -/
def OutboxKind.as_str : OutboxKind → String
  | .upsert => "UPSERT"
  | .supersededBy => "SUPERSEDED_BY"
  | .revokeCapsule => "REVOKE_CAPSULE"

/-- `OutboxEvent` from `src/repository/mod.rs`. -/
structure OutboxEvent where
  id : Int
  tenant_id : Uuid
  kind : OutboxKind
  payload : Json
  created_at : Timestamp
  published_at : Option Timestamp
deriving DecidableEq, Repr

/-! ### Association-list model of `HashMap` -/

/-- Lookup in an association list (`HashMap::get`). -/
def alGet {β : Type} (m : List (Uuid × β)) (k : Uuid) : Option β :=
  (m.find? (fun p => p.1 == k)).map (fun p => p.2)

/-- Insert-or-replace in an association list (`HashMap::insert`); replaces in
place so that the number of entries is unchanged when the key is present. -/
def alSet {β : Type} : List (Uuid × β) → Uuid → β → List (Uuid × β)
  | [], k, v => [(k, v)]
  | p :: rest, k, v =>
      if p.1 == k then (k, v) :: rest else p :: alSet rest k v

/-! ### In-memory backend (`src/repository/in_memory.rs`)

The per-tenant `HashMap<Uuid, KnowledgeNode>` is modelled as an association
list; the real map's iteration order is arbitrary, and every operation that
exposes an order sorts first. -/

/-- One tenant's node map. -/
abbrev NodeMap := List (Uuid × KnowledgeNode)

/-- `InMemoryNodeRepository`: tenant id → node map. -/
structure InMemoryNodeRepository where
  tenants : List (Uuid × NodeMap)
deriving DecidableEq, Repr

/-- The empty repository (`InMemoryNodeRepository::new`). -/
def InMemoryNodeRepository.emptyRepo : InMemoryNodeRepository := ⟨[]⟩

/-- `tenant_map_mut` read side: the tenant's map, defaulting to empty. -/
def InMemoryNodeRepository.tenantNodes (st : InMemoryNodeRepository) (tenant : Uuid) : NodeMap :=
  (alGet st.tenants tenant).getD []

/-- `InMemoryNodeRepository::upsert`. -/
def InMemoryNodeRepository.upsert (st : InMemoryNodeRepository) (tenant : Uuid)
    (node0 : KnowledgeNode) (now : Timestamp) : InMemoryNodeRepository × UpsertOutcome :=
  let tm := st.tenantNodes tenant
  let node1 := { node0 with tenant_id := tenant }
  match alGet tm node1.id with
  | some existing =>
      let node2 := { node1 with created_at := existing.created_at, updated_at := now }
      (⟨alSet st.tenants tenant (alSet tm node2.id node2)⟩, .updated)
  | none =>
      let node2 := { node1 with created_at := now, updated_at := now }
      (⟨alSet st.tenants tenant (alSet tm node2.id node2)⟩, .created)

/-- `InMemoryNodeRepository::get`. -/
def InMemoryNodeRepository.get (st : InMemoryNodeRepository) (tenant id : Uuid) :
    Option KnowledgeNode :=
  (alGet st.tenants tenant).bind (fun nodes => alGet nodes id)

/-- The `(created_at, id)` ascending comparator used by
`InMemoryNodeRepository::query_by_kind`
(`a.created_at.cmp(&b.created_at).then(a.id.cmp(&b.id))`). -/
def nodeOrdLe (a b : KnowledgeNode) : Prop :=
  a.created_at < b.created_at ∨ (a.created_at = b.created_at ∧ a.id ≤ b.id)

instance : DecidableRel nodeOrdLe := fun a b =>
  inferInstanceAs (Decidable (a.created_at < b.created_at ∨ (a.created_at = b.created_at ∧ a.id ≤ b.id)))

instance : IsTotal KnowledgeNode nodeOrdLe where
  total a b := by
    unfold nodeOrdLe
    rcases lt_trichotomy a.created_at b.created_at with h | h | h
    · exact Or.inl (Or.inl h)
    · rcases le_total a.id b.id with h2 | h2
      · exact Or.inl (Or.inr ⟨h, h2⟩)
      · exact Or.inr (Or.inr ⟨h.symm, h2⟩)
    · exact Or.inr (Or.inl h)

instance : IsTrans KnowledgeNode nodeOrdLe where
  trans a b c hab hbc := by
    unfold nodeOrdLe at *
    rcases hab with h1 | ⟨e1, i1⟩
    · rcases hbc with h2 | ⟨e2, _⟩
      · exact Or.inl (h1.trans h2)
      · exact Or.inl (e2 ▸ h1)
    · rcases hbc with h2 | ⟨e2, i2⟩
      · exact Or.inl (e1 ▸ h2)
      · exact Or.inr ⟨e1.trans e2, i1.trans i2⟩

/-- `InMemoryNodeRepository::query_by_kind`. -/
def InMemoryNodeRepository.query_by_kind (st : InMemoryNodeRepository) (tenant : Uuid)
    (kind : String) (limit : Nat) (cursor : Option Uuid) : List KnowledgeNode :=
  match alGet st.tenants tenant with
  | none => []
  | some nodesMap =>
      let nodes0 := (nodesMap.map (fun p => p.2)).filter (fun n => n.kind == kind)
      let nodes1 := nodes0.insertionSort nodeOrdLe
      let nodes2 := match cursor with
        | some cursorId =>
            match nodes1.findIdx? (fun (n : KnowledgeNode) => n.id == cursorId) with
            | some pos => nodes1.drop (pos + 1)
            | none => nodes1
        | none => nodes1
      nodes2.take limit

/-- The dot product `candidate.iter().zip(vector.iter()).map(|(a, b)| a * b).sum()`
(`zip` truncates to the shorter vector). -/
def dotProduct (a b : List Rat) : Rat :=
  (List.zipWith (fun x y => x * y) a b).sum

/-- The descending-score comparator
`b.0.partial_cmp(&a.0).unwrap_or(Ordering::Equal)` of `search_similar`
(rationals have no NaN, so the `unwrap_or` branch only covers ties). -/
def scoreLe (a b : Rat × KnowledgeNode) : Prop := b.1 ≤ a.1

instance : DecidableRel scoreLe := fun a b =>
  inferInstanceAs (Decidable (b.1 ≤ a.1))

instance : IsTotal (Rat × KnowledgeNode) scoreLe where
  total a b := le_total b.1 a.1

instance : IsTrans (Rat × KnowledgeNode) scoreLe where
  trans _ _ _ hab hbc := le_trans hbc hab

/-- `InMemoryNodeRepository::search_similar`. -/
def InMemoryNodeRepository.search_similar (st : InMemoryNodeRepository) (tenant : Uuid)
    (vector : List Rat) (limit : Nat) : List KnowledgeNode :=
  if vector.isEmpty then []
  else
    match alGet st.tenants tenant with
    | none => []
    | some nodesMap =>
        let scored := (nodesMap.map (fun p => p.2)).filterMap
          (fun (n : KnowledgeNode) => n.vector.map (fun cand => (dotProduct cand vector, n)))
        ((scored.insertionSort scoreLe).take limit).map (fun p => p.2)

/-- The capsule key carried by a node payload, when the payload is a capsule. -/
def payloadKey (n : KnowledgeNode) : Option String :=
  match n.payload_json with
  | Json.capsule c => some c.key
  | _ => none

/-- Modelled from the spec: `NodeRepository::get_by_key` is declared on the
trait (`src/repository/mod.rs`) and called by the capsule handlers, but no
backend implementation is present under `src/`. Per the spec, the lookup flow
is node repository get-by-key followed by capsule translation, the key is the
capsule key carried in the node payload, absence is `None`, and the read never
crosses tenants; so the model returns the first stored node of the tenant
whose capsule payload carries the requested key. -/
def InMemoryNodeRepository.get_by_key (st : InMemoryNodeRepository) (tenant : Uuid)
    (key : String) : Option KnowledgeNode :=
  ((st.tenantNodes tenant).map (fun p => p.2)).find? (fun n => payloadKey n == some key)

/-- `InMemoryOutboxRepository`: `VecDeque<OutboxEvent>` with the front of the
queue at the head of the list. -/
structure InMemoryOutboxRepository where
  events : List OutboxEvent
deriving DecidableEq, Repr

/-- `InMemoryOutboxRepository::enqueue`. -/
def InMemoryOutboxRepository.enqueue (st : InMemoryOutboxRepository) (tenant : Uuid)
    (kind : OutboxKind) (payload : Json) (now : Timestamp) :
    InMemoryOutboxRepository × Int :=
  let id : Int := (st.events.length : Int) + 1
  (⟨st.events ++ [{ id := id, tenant_id := tenant, kind := kind, payload := payload,
                    created_at := now, published_at := none }]⟩, id)

/-- `InMemoryOutboxRepository::claim_batch`: pops `size.min(len)` events off
the front, stamping `published_at` on each. -/
def InMemoryOutboxRepository.claim_batch (st : InMemoryOutboxRepository) (size : Nat)
    (now : Timestamp) : InMemoryOutboxRepository × List OutboxEvent :=
  let k := min size st.events.length
  let claimed := (st.events.take k).map (fun e => { e with published_at := some now })
  (⟨st.events.drop k⟩, claimed)

/-! ### Postgres backend (`src/repository/postgres.rs`)

The SQL statements are interpreted as sequential transitions on an explicit
table state (a list of rows in insertion order). `map_node_row` always sets
`vector: None`, which the read paths below reproduce. -/

/-- The `knowledge_nodes` table. -/
structure PgNodeTable where
  rows : List KnowledgeNode
deriving DecidableEq, Repr

/-- Modelled from the spec: the row-level-security policies live in the
migrations, which are not under `src/` (the integration test runs
`sqlx::migrate!("./migrations")`). Per the spec, every connection carries a
session tenant marker (`set_tenant_on_conn`) consumed by RLS so that reads
only ever see rows of that tenant; the model therefore filters reads to the
session tenant's rows. -/
def PgNodeTable.rlsVisible (tbl : PgNodeTable) (tenant : Uuid) : List KnowledgeNode :=
  tbl.rows.filter (fun r => r.tenant_id == tenant)

/-- `map_node_row`: rebuilds a node from a row, always with `vector: None`. -/
def mapNodeRow (r : KnowledgeNode) : KnowledgeNode := { r with vector := none }

/-- `PostgresNodeRepository::upsert`: the bare `INSERT ... ON CONFLICT (id)
DO UPDATE SET kind, payload_json, provenance, policy, updated_at = now()
RETURNING (xmax = 0) AS created` statement as written in the source, without
the migrations' row-level-security policies. The insert branch fills the
`created_at`/`updated_at` column defaults with `now()`; the inserted column
list omits `vector`. The conflict target is the global primary key on `id`,
so this bare statement would fire its update against a row held by another
tenant; `upsertRls` below layers the deployed policies on top of it. -/
def PgNodeTable.upsert (tbl : PgNodeTable) (tenant : Uuid) (node0 : KnowledgeNode)
    (now : Timestamp) : PgNodeTable × UpsertOutcome :=
  let node := { node0 with tenant_id := tenant }
  if tbl.rows.any (fun r => r.id == node.id) then
    (⟨tbl.rows.map (fun r =>
        if r.id == node.id then
          { r with kind := node.kind, payload_json := node.payload_json,
                   provenance := node.provenance, policy := node.policy,
                   updated_at := now }
        else r)⟩, .updated)
  else
    (⟨tbl.rows ++ [{ node with vector := none, created_at := now, updated_at := now }]⟩,
     .created)

/-- Modelled from the spec: the row-level-security policies live in the
migrations, which are not under `src/`. The upsert statement runs on a
connection carrying the session tenant (`set_tenant_on_conn`, exactly as the
read paths do), and the spec promises that "even a malformed query cannot
cross tenants"; so when the `ON CONFLICT (id)` clause would turn the insert
into an update of a row held by a *different* tenant, the policy rejects the
statement and the call returns an error. When every row the statement would
touch is the session tenant's own, the policies are satisfied and the
statement behaves exactly as written. -/
def PgNodeTable.upsertRls (tbl : PgNodeTable) (tenant : Uuid) (node0 : KnowledgeNode)
    (now : Timestamp) : Except String (PgNodeTable × UpsertOutcome) :=
  if tbl.rows.any (fun r => r.id == node0.id && !(r.tenant_id == tenant)) then
    Except.error "row-level security violation"
  else
    Except.ok (tbl.upsert tenant node0 now)

/-- `PostgresNodeRepository::get`: `SELECT ... WHERE id = $1` — no explicit
tenant predicate; tenant isolation comes from the RLS visibility filter. -/
def PgNodeTable.get (tbl : PgNodeTable) (tenant id : Uuid) : Option KnowledgeNode :=
  ((tbl.rlsVisible tenant).find? (fun r => r.id == id)).map mapNodeRow

/-- The `ORDER BY created_at DESC, id ASC` comparator of
`PostgresNodeRepository::query_by_kind`. -/
def pgNodeOrdLe (a b : KnowledgeNode) : Prop :=
  b.created_at < a.created_at ∨ (a.created_at = b.created_at ∧ a.id ≤ b.id)

instance : DecidableRel pgNodeOrdLe := fun a b =>
  inferInstanceAs (Decidable (b.created_at < a.created_at ∨ (a.created_at = b.created_at ∧ a.id ≤ b.id)))

/-- `PostgresNodeRepository::query_by_kind`: `WHERE tenant_id = $1 AND kind =
$2 AND ($3::uuid IS NULL OR id > $3) ORDER BY created_at DESC, id ASC LIMIT $4`. -/
def PgNodeTable.query_by_kind (tbl : PgNodeTable) (tenant : Uuid) (kind : String)
    (limit : Nat) (cursor : Option Uuid) : List KnowledgeNode :=
  let rows0 := (tbl.rlsVisible tenant).filter (fun r =>
    r.kind == kind && (match cursor with
      | none => true
      | some c => decide (c < r.id)))
  ((rows0.insertionSort pgNodeOrdLe).take limit).map mapNodeRow

/-- `PostgresNodeRepository::search_similar` is a stub pending pgvector
integration: it always returns the empty list. -/
def PgNodeTable.search_similar (_tbl : PgNodeTable) (_tenant : Uuid)
    (_vector : List Rat) (_limit : Nat) : List KnowledgeNode := []

/-- The `outbox_events` table. -/
structure PgOutboxTable where
  rows : List OutboxEvent
deriving DecidableEq, Repr

/-- `PostgresOutboxRepository::enqueue`: `INSERT INTO outbox_events (tenant_id,
kind, payload) VALUES ... RETURNING id`; the serial id column and the
`created_at` default fill in (no row is ever deleted, so the next serial id is
the row count plus one). -/
def PgOutboxTable.enqueue (tbl : PgOutboxTable) (tenant : Uuid) (kind : OutboxKind)
    (payload : Json) (now : Timestamp) : PgOutboxTable × Int :=
  let id : Int := (tbl.rows.length : Int) + 1
  (⟨tbl.rows ++ [{ id := id, tenant_id := tenant, kind := kind, payload := payload,
                   created_at := now, published_at := none }]⟩, id)

/-- The `ORDER BY created_at ASC` comparator of the claim subquery. -/
def createdLe (a b : OutboxEvent) : Prop := a.created_at ≤ b.created_at

instance : DecidableRel createdLe := fun a b =>
  inferInstanceAs (Decidable (a.created_at ≤ b.created_at))

instance : IsTotal OutboxEvent createdLe where
  total a b := le_total a.created_at b.created_at

instance : IsTrans OutboxEvent createdLe where
  trans _ _ _ hab hbc := le_trans hab hbc

/-- `PostgresOutboxRepository::claim_batch`: `UPDATE outbox_events SET
published_at = now() WHERE id IN (SELECT id FROM outbox_events WHERE
published_at IS NULL ORDER BY created_at ASC LIMIT $1 FOR UPDATE SKIP LOCKED)
RETURNING ...` — interpreted sequentially (no concurrent lock holder, so SKIP
LOCKED skips nothing): select up to `size` oldest unpublished ids, stamp those
rows, return the stamped rows. -/
def PgOutboxTable.claim_batch (tbl : PgOutboxTable) (size : Nat) (now : Timestamp) :
    PgOutboxTable × List OutboxEvent :=
  let unpublished := tbl.rows.filter (fun e => e.published_at.isNone)
  let ids := ((unpublished.insertionSort createdLe).take size).map (fun e => e.id)
  let rows := tbl.rows.map (fun e =>
    if ids.contains e.id then { e with published_at := some now } else e)
  (⟨rows⟩, rows.filter (fun e => ids.contains e.id))

/-! ### Capsule HTTP handlers (`src/server/http.rs`)

The handlers are modelled over the in-memory backend bundle; the event-bus
`json!` payloads published by `publish_graph_event` appear as the structured
`GraphEvent`. -/

/-- The `json!` event payloads built by `api_capsule_store` / `api_capsule_purge`. -/
inductive GraphEvent where
  | upsertNode (tenant key hash : String)
  | supersededBy (tenant old_hash new_hash : String)
  | revokeCapsule (tenant capsule_id hash : String)
deriving DecidableEq, Repr

/-- The slice of `AppConfig` the capsule handlers read. -/
structure AppConfig where
  default_tenant_id : Uuid
  tenant_slugs : List (String × Uuid)
  scedge_event_bus_enabled : Bool
deriving DecidableEq, Repr

/-- `resolve_tenant`. -/
def resolve_tenant (cfg : AppConfig) (slug : Option String) : Uuid :=
  match slug with
  | some s =>
      match cfg.tenant_slugs.find? (fun p => p.1 == s) with
      | some p => p.2
      | none => cfg.default_tenant_id
  | none => cfg.default_tenant_id

/-- The HTTP statuses the capsule handlers produce. -/
inductive HttpStatus where
  | ok
  | badRequest
  | notFound
  | internalServerError
deriving DecidableEq, Repr

/-- `CapsuleStoreBody`. -/
structure CapsuleStoreBody where
  tenant : Option String
  capsule : CapsuleIngestRequest
deriving DecidableEq, Repr

/-- Result of one `api_capsule_store` call: the HTTP status, the node store
after the call, the graph events published to the bus during the call, and
the storage outcome echoed in the OK response body. -/
structure StoreCallResult where
  status : HttpStatus
  store : InMemoryNodeRepository
  events : List GraphEvent
  outcome : Option UpsertOutcome
deriving DecidableEq, Repr

/-- `api_capsule_store`; `freshId`/`now` are the randomness/clock readings of
the call. -/
def api_capsule_store (cfg : AppConfig) (store : InMemoryNodeRepository)
    (body : CapsuleStoreBody) (freshId : Uuid) (now : Timestamp) : StoreCallResult :=
  let capsule := body.capsule
  if (match body.tenant with
      | some expected => capsule.artifact.policy.tenant != expected
      | none => false) then
    ⟨.badRequest, store, [], none⟩
  else if capsule.artifact.policy.tenant = "" then
    ⟨.badRequest, store, [], none⟩
  else
    let tenant_id := resolve_tenant cfg body.tenant
    let existing_node := store.get_by_key tenant_id capsule.key
    let response_capsule := capsule
    match capsule.into_node tenant_id freshId now with
    | .error _ => ⟨.internalServerError, store, [], none⟩
    | .ok node =>
        let existing_capsule := existing_node.bind
          (fun n => (CapsuleLookupResponse.from_node n now).toOption)
        let res := store.upsert tenant_id node now
        let events := if cfg.scedge_event_bus_enabled then
            match res.2, existing_capsule with
            | .updated, some old_capsule =>
                [GraphEvent.supersededBy response_capsule.artifact.policy.tenant
                  old_capsule.artifact.hash response_capsule.artifact.hash]
            | _, _ =>
                [GraphEvent.upsertNode response_capsule.artifact.policy.tenant
                  response_capsule.key response_capsule.artifact.hash]
          else []
        ⟨.ok, res.1, events, some res.2⟩

/-- `api_capsule_lookup`: get-by-key, capsule translation, then the
policy-tenant recheck (`cache_miss` when the slug was supplied and differs). -/
def api_capsule_lookup (cfg : AppConfig) (store : InMemoryNodeRepository)
    (key : String) (slug : Option String) (now : Timestamp) :
    Except HttpStatus CapsuleLookupResponse :=
  let tenant_id := resolve_tenant cfg slug
  match store.get_by_key tenant_id key with
  | none => Except.error .notFound
  | some node =>
      match CapsuleLookupResponse.from_node node now with
      | .error _ => Except.error .internalServerError
      | .ok capsule =>
          match slug with
          | some expected =>
              if capsule.artifact.policy.tenant ≠ expected then Except.error .notFound
              else Except.ok capsule
          | none => Except.ok capsule

/-! ## Helper lemmas -/

theorem alGet_nil {β : Type} (k : Uuid) : alGet ([] : List (Uuid × β)) k = none := rfl

theorem alGet_cons {β : Type} (p : Uuid × β) (rest : List (Uuid × β)) (k : Uuid) :
    alGet (p :: rest) k = if p.1 == k then some p.2 else alGet rest k := by
  by_cases h : p.1 = k
  · simp [alGet, List.find?_cons, h]
  · simp [alGet, List.find?_cons, beq_eq_false_iff_ne.mpr h]

theorem alGet_alSet_self {β : Type} (m : List (Uuid × β)) (k : Uuid) (v : β) :
    alGet (alSet m k v) k = some v := by
  induction m with
  | nil => simp [alGet_cons, alSet]
  | cons p rest ih =>
      by_cases h : p.1 = k
      · simp [alSet, alGet_cons, h]
      · have hb : (p.1 == k) = false := beq_eq_false_iff_ne.mpr h
        simp [alSet, hb, alGet_cons, ih]

theorem alGet_alSet_ne {β : Type} (m : List (Uuid × β)) (k k2 : Uuid) (v : β)
    (h : k ≠ k2) : alGet (alSet m k v) k2 = alGet m k2 := by
  induction m with
  | nil => simp [alGet_nil, alGet_cons, alSet, beq_eq_false_iff_ne.mpr h]
  | cons p rest ih =>
      by_cases hp : p.1 = k
      · simp [alSet, beq_iff_eq.mpr hp, alGet_cons, beq_eq_false_iff_ne.mpr h, hp]
      · have hb : (p.1 == k) = false := beq_eq_false_iff_ne.mpr hp
        simp [alSet, hb, alGet_cons, ih]

theorem alSet_length_of_get_isSome {β : Type} (m : List (Uuid × β)) (k : Uuid) (v : β)
    (h : (alGet m k).isSome) : (alSet m k v).length = m.length := by
  induction m with
  | nil => simp [alGet] at h
  | cons p rest ih =>
      by_cases hp : p.1 = k
      · simp [alSet, beq_iff_eq.mpr hp]
      · have hb : (p.1 == k) = false := beq_eq_false_iff_ne.mpr hp
        rw [alGet_cons, hb] at h
        simp only [alSet, hb, if_false, List.length_cons]
        exact congrArg (· + 1) (ih (by simpa using h))

theorem alSet_of_get_none {β : Type} (m : List (Uuid × β)) (k : Uuid) (v : β)
    (h : alGet m k = none) : alSet m k v = m ++ [(k, v)] := by
  induction m with
  | nil => simp [alSet]
  | cons p rest ih =>
      by_cases hp : p.1 = k
      · rw [alGet_cons, beq_iff_eq.mpr hp] at h
        simp at h
      · have hb : (p.1 == k) = false := beq_eq_false_iff_ne.mpr hp
        rw [alGet_cons, hb] at h
        simp only [alSet, hb, Bool.false_eq_true, if_false, List.cons_append,
          List.cons.injEq, true_and]
        exact ih (by simpa using h)

/-- The tenant map after an upsert: insert-or-replace of the adjusted node. -/
theorem upsert_tenantNodes (st : InMemoryNodeRepository) (t : Uuid)
    (node : KnowledgeNode) (now : Timestamp) :
    ((st.upsert t node now).1).tenantNodes t =
      alSet (st.tenantNodes t) node.id
        (match alGet (st.tenantNodes t) node.id with
         | some existing =>
             { node with tenant_id := t, created_at := existing.created_at, updated_at := now }
         | none => { node with tenant_id := t, created_at := now, updated_at := now }) := by
  unfold InMemoryNodeRepository.upsert InMemoryNodeRepository.tenantNodes
  cases h : alGet ((alGet st.tenants t).getD []) node.id <;>
    simp [h, alGet_alSet_self]

theorem upsert_outcome_created (st : InMemoryNodeRepository) (t : Uuid)
    (node : KnowledgeNode) (now : Timestamp)
    (h : alGet (st.tenantNodes t) node.id = none) :
    (st.upsert t node now).2 = UpsertOutcome.created := by
  unfold InMemoryNodeRepository.upsert
  simp [h]

theorem upsert_outcome_updated (st : InMemoryNodeRepository) (t : Uuid)
    (node : KnowledgeNode) (now : Timestamp)
    (h : (alGet (st.tenantNodes t) node.id).isSome) :
    (st.upsert t node now).2 = UpsertOutcome.updated := by
  unfold InMemoryNodeRepository.upsert
  cases hx : alGet (st.tenantNodes t) node.id with
  | none => rw [hx] at h; simp at h
  | some e => simp [hx]

/-- `ensure_defaults` only touches provenance. -/
theorem ensure_defaults_hash (a : CapsuleArtifact) :
    a.ensure_defaults.hash = a.hash := by
  unfold CapsuleArtifact.ensure_defaults
  split <;> rfl

theorem ensure_defaults_policy (a : CapsuleArtifact) :
    a.ensure_defaults.policy = a.policy := by
  unfold CapsuleArtifact.ensure_defaults
  split <;> rfl

theorem ensure_defaults_ttl (a : CapsuleArtifact) :
    a.ensure_defaults.ttl_seconds = a.ttl_seconds := by
  unfold CapsuleArtifact.ensure_defaults
  split <;> rfl

/-- The id of a successfully converted ingest node is the stable v5 hash of
`key ‖ ":" ‖ hash`. -/
theorem into_node_ok_id (c : CapsuleIngestRequest) (t f : Uuid) (n : Timestamp)
    (node : KnowledgeNode) (h : c.into_node t f n = Except.ok node) :
    node.id = uuidNewV5 (c.key ++ ":" ++ c.artifact.hash) := by
  unfold CapsuleIngestRequest.into_node at h
  by_cases h1 : c.artifact.ensure_defaults.policy.tenant = ""
  · simp [h1] at h
  · by_cases h2 : c.artifact.ensure_defaults.hash = ""
    · simp [h1, h2] at h
    · simp only [h1, h2, if_false] at h
      cases h
      simp [ensure_defaults_hash]

/-- After an upsert, the tenant map holds an entry at the node's id. -/
theorem upsert_get_self_isSome (st : InMemoryNodeRepository) (t : Uuid)
    (node : KnowledgeNode) (now : Timestamp) :
    (alGet (((st.upsert t node now).1).tenantNodes t) node.id).isSome := by
  rw [upsert_tenantNodes]
  cases alGet (st.tenantNodes t) node.id <;> simp [alGet_alSet_self]

/-! ## C7 — deterministic capsule identity -/

/-- C7: the node identity produced by capsule ingest is a deterministic
function of `(key, artifact.hash)`: two successfully converted ingest requests
with equal key and equal hash map to the same node UUID regardless of every
other field (and regardless of the tenant, the random v4 id, and the clock);
and re-ingesting a node with an already-present identity is a no-op update:
the outcome is `Updated` and the tenant's node count is unchanged. -/
theorem C7_deterministic_capsule_identity :
    (∀ (r1 r2 : CapsuleIngestRequest) (t1 t2 f1 f2 : Uuid) (n1 n2 : Timestamp)
       (node1 node2 : KnowledgeNode),
       r1.key = r2.key → r1.artifact.hash = r2.artifact.hash →
       r1.into_node t1 f1 n1 = Except.ok node1 →
       r2.into_node t2 f2 n2 = Except.ok node2 →
       node1.id = node2.id) ∧
    (∀ (st : InMemoryNodeRepository) (t : Uuid) (node1 node2 : KnowledgeNode)
       (now1 now2 : Timestamp),
       node1.id = node2.id →
       ((((st.upsert t node1 now1).1).upsert t node2 now2).2 = UpsertOutcome.updated ∧
        ((((st.upsert t node1 now1).1).upsert t node2 now2).1.tenantNodes t).length =
          (((st.upsert t node1 now1).1).tenantNodes t).length)) := by
  constructor
  · intro r1 r2 t1 t2 f1 f2 n1 n2 node1 node2 hkey hhash h1 h2
    rw [into_node_ok_id r1 t1 f1 n1 node1 h1, into_node_ok_id r2 t2 f2 n2 node2 h2,
      hkey, hhash]
  · intro st t node1 node2 now1 now2 hid
    have hsome : (alGet (((st.upsert t node1 now1).1).tenantNodes t) node2.id).isSome := by
      rw [← hid]; exact upsert_get_self_isSome st t node1 now1
    refine ⟨upsert_outcome_updated _ t node2 now2 hsome, ?_⟩
    rw [upsert_tenantNodes]
    cases h : alGet ((InMemoryNodeRepository.upsert st t node1 now1).1.tenantNodes t) node2.id with
    | none => rw [h] at hsome; simp at hsome
    | some e => exact alSet_length_of_get_isSome _ _ _ hsome

/-- A concrete ingest request used to witness C7. -/
def c7Policy : CapsulePolicy :=
  { tenant := "acme", phi := false, pii := false, region := none, compliance_tags := [] }

/-- A concrete ingest request used to witness C7. -/
def c7Req1 : CapsuleIngestRequest :=
  { key := "k"
    artifact := { answer := "a1", policy := c7Policy, provenance := [], metrics := none,
                  ttl_seconds := none, hash := "h", metadata := none }
    expires_at := none }

/-- A second request with the same `(key, hash)` but different answer, TTL and
policy region. -/
def c7Req2 : CapsuleIngestRequest :=
  { key := "k"
    artifact := { answer := "a2", policy := { c7Policy with region := some "eu" },
                  provenance := [], metrics := none,
                  ttl_seconds := some 60, hash := "h", metadata := none }
    expires_at := none }

/-- The node produced by converting `c7Req1`. -/
def c7Node1 : KnowledgeNode :=
  { id := uuidNewV5 ("k" ++ ":" ++ "h")
    tenant_id := 1
    kind := "capsule"
    payload_json := Json.capsule
      { c7Req1 with artifact := { c7Req1.artifact with provenance := [CapsuleProvenance.defaultRecord] } }
    vector := none
    provenance := some (Json.provenanceBlob [CapsuleProvenance.defaultRecord])
    policy := some (Json.policyBlob c7Policy)
    created_at := 9
    updated_at := 9 }

/-- The node produced by converting `c7Req2`. -/
def c7Node2 : KnowledgeNode :=
  { id := uuidNewV5 ("k" ++ ":" ++ "h")
    tenant_id := 2
    kind := "capsule"
    payload_json := Json.capsule
      { c7Req2 with artifact := { c7Req2.artifact with provenance := [CapsuleProvenance.defaultRecord] } }
    vector := none
    provenance := some (Json.provenanceBlob [CapsuleProvenance.defaultRecord])
    policy := some (Json.policyBlob { c7Policy with region := some "eu" })
    created_at := 10
    updated_at := 10 }

/-- Witness for C7 at concrete inputs. -/
theorem C7_witness :
    c7Node1.id = c7Node2.id ∧
    ((((InMemoryNodeRepository.emptyRepo.upsert 1 c7Node1 9).1).upsert 1 c7Node2 10).2 =
        UpsertOutcome.updated ∧
     ((((InMemoryNodeRepository.emptyRepo.upsert 1 c7Node1 9).1).upsert 1 c7Node2 10).1.tenantNodes 1).length =
       (((InMemoryNodeRepository.emptyRepo.upsert 1 c7Node1 9).1).tenantNodes 1).length) :=
  ⟨C7_deterministic_capsule_identity.1 c7Req1 c7Req2 1 2 5 6 9 10 c7Node1 c7Node2
      rfl rfl rfl rfl,
   C7_deterministic_capsule_identity.2 InMemoryNodeRepository.emptyRepo 1 c7Node1 c7Node2
      9 10 rfl⟩

/-! ## C8 — capsule ingest validation -/

/-- C8: converting an ingest request to a node fails exactly when
`policy.tenant` or `artifact.hash` is empty (provenance defaulting does not
change either field), and whenever `api_capsule_store` rejects a request
(any non-OK status) the node store is unchanged. -/
theorem C8_ingest_validation :
    (∀ (c : CapsuleIngestRequest) (t f : Uuid) (n : Timestamp),
       (∃ msg, c.into_node t f n = Except.error msg) ↔
         (c.artifact.policy.tenant = "" ∨ c.artifact.hash = "")) ∧
    (∀ (cfg : AppConfig) (store : InMemoryNodeRepository) (body : CapsuleStoreBody)
       (f : Uuid) (n : Timestamp),
       (api_capsule_store cfg store body f n).status ≠ HttpStatus.ok →
       (api_capsule_store cfg store body f n).store = store) := by
  constructor
  · intro c t f n
    unfold CapsuleIngestRequest.into_node
    by_cases h1 : c.artifact.ensure_defaults.policy.tenant = ""
    · rw [ensure_defaults_policy] at h1
      simp [ensure_defaults_policy, h1]
    · rw [ensure_defaults_policy] at h1
      by_cases h2 : c.artifact.ensure_defaults.hash = ""
      · rw [ensure_defaults_hash] at h2
        simp [ensure_defaults_policy, ensure_defaults_hash, h1, h2]
      · rw [ensure_defaults_hash] at h2
        simp [ensure_defaults_policy, ensure_defaults_hash, h1, h2]
  · intro cfg store body f n hstatus
    unfold api_capsule_store at hstatus ⊢
    cases hm : (match body.tenant with
      | some expected => body.capsule.artifact.policy.tenant != expected
      | none => false) with
    | true => simp [hm]
    | false =>
        simp only [hm, Bool.false_eq_true, if_false] at hstatus ⊢
        by_cases h2 : body.capsule.artifact.policy.tenant = ""
        · simp [h2]
        · simp only [h2, if_false] at hstatus ⊢
          cases hin : body.capsule.into_node (resolve_tenant cfg body.tenant) f n with
          | error e => simp [hin]
          | ok node => simp [hin] at hstatus

/-- Witness for C8 at concrete inputs: a request with an empty hash is
rejected, and the rejecting handler call leaves the store unchanged. -/
theorem C8_witness :
    ((∃ msg, CapsuleIngestRequest.into_node
        { key := "k"
          artifact := { answer := "a", policy := c7Policy, provenance := [], metrics := none,
                        ttl_seconds := none, hash := "", metadata := none }
          expires_at := none } 1 5 9 = Except.error msg) ↔
      (c7Policy.tenant = "" ∨ ("" : String) = "")) ∧
    (api_capsule_store
        { default_tenant_id := 1, tenant_slugs := [], scedge_event_bus_enabled := true }
        InMemoryNodeRepository.emptyRepo
        { tenant := none
          capsule := { key := "k"
                       artifact := { answer := "a", policy := { c7Policy with tenant := "" },
                                     provenance := [], metrics := none,
                                     ttl_seconds := none, hash := "h", metadata := none }
                       expires_at := none } }
        5 9).store = InMemoryNodeRepository.emptyRepo :=
  ⟨C8_ingest_validation.1 _ 1 5 9,
   C8_ingest_validation.2 _ _ _ 5 9 (by decide)⟩

/-! ## C10 — stale cursor is silently ignored -/

/-- C10: in the in-memory backend, a cursor that matches no stored node of
the given tenant and kind is silently ignored: the call returns the first
`limit` nodes of the full ordered sequence, exactly as a cursor-less call
would — not an empty result and not an error. -/
theorem C10_stale_cursor_ignored
    (st : InMemoryNodeRepository) (t : Uuid) (kind : String) (limit : Nat)
    (cursorId : Uuid)
    (hstale : ∀ n : KnowledgeNode,
      n ∈ ((st.tenantNodes t).map (fun p => p.2)).filter (fun n => n.kind == kind) →
      n.id ≠ cursorId) :
    st.query_by_kind t kind limit (some cursorId) =
      (((((st.tenantNodes t).map (fun p => p.2)).filter
          (fun n => n.kind == kind)).insertionSort nodeOrdLe).take limit) ∧
    st.query_by_kind t kind limit (some cursorId) = st.query_by_kind t kind limit none := by
  unfold InMemoryNodeRepository.query_by_kind
  cases h : alGet st.tenants t with
  | none =>
      constructor
      · simp [InMemoryNodeRepository.tenantNodes, h, List.insertionSort]
      · rfl
  | some nodesMap =>
      have htm : st.tenantNodes t = nodesMap := by
        simp [InMemoryNodeRepository.tenantNodes, h]
      have hnone : List.findIdx? (fun (n : KnowledgeNode) => n.id == cursorId)
          ((((nodesMap.map (fun p => p.2)).filter
            (fun (n : KnowledgeNode) => n.kind == kind)).insertionSort nodeOrdLe)) = none := by
        rw [List.findIdx?_eq_none_iff]
        intro x hx
        have hx2 : x ∈ (nodesMap.map (fun p => p.2)).filter (fun n => n.kind == kind) :=
          (List.mem_insertionSort nodeOrdLe).mp hx
        have := hstale x (htm ▸ hx2)
        simpa using this
      refine ⟨?_, ?_⟩ <;> simp [hnone, htm]

/-- Witness for C10 at concrete inputs: one stored note, queried with a
stale cursor id. -/
theorem C10_witness :
    ((InMemoryNodeRepository.emptyRepo.upsert 1 c7Node1 9).1.query_by_kind 1 "capsule" 5 (some 999) =
      (((((InMemoryNodeRepository.emptyRepo.upsert 1 c7Node1 9).1.tenantNodes 1).map
          (fun p => p.2)).filter (fun n => n.kind == "capsule")).insertionSort nodeOrdLe).take 5) ∧
    ((InMemoryNodeRepository.emptyRepo.upsert 1 c7Node1 9).1.query_by_kind 1 "capsule" 5 (some 999) =
      (InMemoryNodeRepository.emptyRepo.upsert 1 c7Node1 9).1.query_by_kind 1 "capsule" 5 none) :=
  C10_stale_cursor_ignored _ 1 "capsule" 5 999 (by decide)

/-! ## C5 — TTL/expiry duality -/

/-- Characterization of the expiry-related fields of `from_node` on a
capsule payload: the lookup never fails, the response expiry is the stored
expiry if present and otherwise `updated_at + ttl`, the response TTL is the
stored TTL if present and otherwise `max(0, expiry - updated_at)`, and the
remaining TTL is `max(0, expiry - now)` of the response expiry. -/
theorem from_node_expiry (node : KnowledgeNode) (c : CapsuleIngestRequest)
    (now : Timestamp) (hp : node.payload_json = Json.capsule c) :
    ∃ resp, CapsuleLookupResponse.from_node node now = Except.ok resp ∧
      resp.key = c.key ∧
      resp.expires_at = (match c.expires_at, c.artifact.ttl_seconds with
        | some e, _ => some e
        | none, some ttl => some (node.updated_at + ttl)
        | none, none => none) ∧
      resp.artifact.ttl_seconds = (match c.artifact.ttl_seconds, c.expires_at with
        | some ttl, _ => some ttl
        | none, some e => some (max (e - node.updated_at) 0)
        | none, none => none) ∧
      resp.ttl_remaining_seconds = (match c.expires_at, c.artifact.ttl_seconds with
        | some e, _ => some (max (e - now) 0)
        | none, some ttl => some (max (node.updated_at + ttl - now) 0)
        | none, none => none) := by
  unfold CapsuleLookupResponse.from_node
  rw [hp]
  refine ⟨_, rfl, ?_, ?_, ?_, ?_⟩ <;>
  · by_cases h1 : c.artifact.policy.tenant = "" <;>
      by_cases h2 : c.artifact.hash = "" <;>
        cases httl : c.artifact.ttl_seconds <;>
          cases hexp : c.expires_at <;>
            simp [deriveTtl, ensure_defaults_ttl, ensure_defaults_policy,
              ensure_defaults_hash, h1, h2, httl, hexp]

/-- A successfully converted ingest node carries the defaulted capsule as its
payload. -/
theorem into_node_ok_payload (c : CapsuleIngestRequest) (t f : Uuid) (n : Timestamp)
    (node : KnowledgeNode) (h : c.into_node t f n = Except.ok node) :
    node.payload_json = Json.capsule { c with artifact := c.artifact.ensure_defaults } := by
  unfold CapsuleIngestRequest.into_node at h
  by_cases h1 : c.artifact.ensure_defaults.policy.tenant = ""
  · simp [h1] at h
  · by_cases h2 : c.artifact.ensure_defaults.hash = ""
    · simp [h1, h2] at h
    · simp only [h1, h2, if_false] at h
      cases h
      rfl

/-- Ingesting a converted capsule node into the empty in-memory store and
reading it back by key returns the stored node, whose timestamps are both the
upsert time. -/
theorem ingest_then_get_by_key (r : CapsuleIngestRequest) (t f : Uuid)
    (n0 now1 : Timestamp) (node : KnowledgeNode)
    (h : r.into_node t f n0 = Except.ok node) :
    (InMemoryNodeRepository.emptyRepo.upsert t node now1).1.get_by_key t r.key =
      some { node with tenant_id := t, created_at := now1, updated_at := now1 } := by
  have hpay := into_node_ok_payload r t f n0 node h
  unfold InMemoryNodeRepository.upsert InMemoryNodeRepository.get_by_key
    InMemoryNodeRepository.tenantNodes InMemoryNodeRepository.emptyRepo
  simp only [alGet_nil, Option.getD_none]
  simp [alSet, alGet_nil, alGet_alSet_self, alGet_cons,
    InMemoryNodeRepository.tenantNodes, payloadKey, hpay]

/-- C5: TTL/expiry duality. For every node whose payload parses as a capsule:
TTL absent + expiry present derives `ttl = max(0, expiry − updated_at)`;
TTL present + expiry absent derives `expiry = updated_at + ttl`; both absent
yields neither an expiry nor a remaining TTL; and ingest-then-lookup through
the in-memory store reproduces the expiry instant established at ingest for
either representation. -/
theorem C5_ttl_expiry_duality :
    (∀ (node : KnowledgeNode) (c : CapsuleIngestRequest) (exp : Timestamp)
       (now : Timestamp), node.payload_json = Json.capsule c →
       c.artifact.ttl_seconds = none → c.expires_at = some exp →
       ∃ resp, CapsuleLookupResponse.from_node node now = Except.ok resp ∧
         resp.artifact.ttl_seconds = some (max (exp - node.updated_at) 0) ∧
         resp.expires_at = some exp) ∧
    (∀ (node : KnowledgeNode) (c : CapsuleIngestRequest) (ttl : Int)
       (now : Timestamp), node.payload_json = Json.capsule c →
       c.artifact.ttl_seconds = some ttl → c.expires_at = none →
       ∃ resp, CapsuleLookupResponse.from_node node now = Except.ok resp ∧
         resp.expires_at = some (node.updated_at + ttl)) ∧
    (∀ (node : KnowledgeNode) (c : CapsuleIngestRequest) (now : Timestamp),
       node.payload_json = Json.capsule c →
       c.artifact.ttl_seconds = none → c.expires_at = none →
       ∃ resp, CapsuleLookupResponse.from_node node now = Except.ok resp ∧
         resp.expires_at = none ∧ resp.ttl_remaining_seconds = none) ∧
    (∀ (r : CapsuleIngestRequest) (t f : Uuid) (n0 now1 now2 : Timestamp)
       (node : KnowledgeNode), r.into_node t f n0 = Except.ok node →
       ∃ stored resp,
         (InMemoryNodeRepository.emptyRepo.upsert t node now1).1.get_by_key t r.key =
           some stored ∧
         CapsuleLookupResponse.from_node stored now2 = Except.ok resp ∧
         resp.expires_at = (match r.expires_at, r.artifact.ttl_seconds with
           | some e, _ => some e
           | none, some ttl => some (now1 + ttl)
           | none, none => none)) := by
  refine ⟨?_, ?_, ?_, ?_⟩
  · intro node c exp now hp httl hexp
    obtain ⟨resp, hok, _, hE, hT, _⟩ := from_node_expiry node c now hp
    refine ⟨resp, hok, ?_, ?_⟩
    · rw [hT, httl, hexp]
    · rw [hE, hexp]
  · intro node c ttl now hp httl hexp
    obtain ⟨resp, hok, _, hE, _, _⟩ := from_node_expiry node c now hp
    refine ⟨resp, hok, ?_⟩
    rw [hE, hexp, httl]
  · intro node c now hp httl hexp
    obtain ⟨resp, hok, _, hE, _, hR⟩ := from_node_expiry node c now hp
    refine ⟨resp, hok, ?_, ?_⟩
    · rw [hE, hexp, httl]
    · rw [hR, hexp, httl]
  · intro r t f n0 now1 now2 node h
    have hget := ingest_then_get_by_key r t f n0 now1 node h
    have hpay := into_node_ok_payload r t f n0 node h
    set stored : KnowledgeNode :=
      { node with tenant_id := t, created_at := now1, updated_at := now1 } with hstored
    have hp2 : stored.payload_json =
        Json.capsule { r with artifact := r.artifact.ensure_defaults } := by
      rw [hstored]; exact hpay
    obtain ⟨resp, hok, _, hE, _, _⟩ :=
      from_node_expiry stored { r with artifact := r.artifact.ensure_defaults } now2 hp2
    refine ⟨stored, resp, hget, hok, ?_⟩
    rw [hE]
    have hupd : stored.updated_at = now1 := rfl
    rw [hupd]
    simp [ensure_defaults_ttl]

/-- A concrete ingest request carrying only `ttl_seconds = 3600`. -/
def c5Req : CapsuleIngestRequest :=
  { key := "k"
    artifact := { answer := "a", policy := c7Policy, provenance := [], metrics := none,
                  ttl_seconds := some 3600, hash := "h", metadata := none }
    expires_at := none }

/-- The node produced by converting `c5Req`. -/
def c5Node : KnowledgeNode :=
  { id := uuidNewV5 ("k" ++ ":" ++ "h")
    tenant_id := 1
    kind := "capsule"
    payload_json := Json.capsule
      { c5Req with artifact := { c5Req.artifact with provenance := [CapsuleProvenance.defaultRecord] } }
    vector := none
    provenance := some (Json.provenanceBlob [CapsuleProvenance.defaultRecord])
    policy := some (Json.policyBlob c7Policy)
    created_at := 9
    updated_at := 9 }

/-- Witness for C5 at concrete inputs: a capsule with only `ttl_seconds =
3600`, ingested at time 100, looked up at 150. -/
theorem C5_witness :
    (∃ resp, CapsuleLookupResponse.from_node
        { id := 4, tenant_id := 1, kind := "capsule"
          payload_json := Json.capsule
            { key := "k"
              artifact := { answer := "a", policy := c7Policy, provenance := [], metrics := none,
                            ttl_seconds := none, hash := "h", metadata := none }
              expires_at := some 250 }
          vector := none, provenance := none, policy := none
          created_at := 100, updated_at := 100 } 150 = Except.ok resp ∧
      resp.artifact.ttl_seconds = some (max ((250 : Int) - 100) 0) ∧
      resp.expires_at = some 250) ∧
    (∃ stored resp,
      (InMemoryNodeRepository.emptyRepo.upsert 1 c5Node 100).1.get_by_key 1 "k" =
        some stored ∧
      CapsuleLookupResponse.from_node stored 150 = Except.ok resp ∧
      resp.expires_at = some ((100 : Int) + 3600)) :=
  ⟨C5_ttl_expiry_duality.1 _ _ 250 150 rfl rfl rfl,
   by
    obtain ⟨stored, resp, hget, hok, hE⟩ :=
      C5_ttl_expiry_duality.2.2.2 c5Req 1 5 9 100 150 c5Node rfl
    exact ⟨stored, resp, hget, hok, hE⟩⟩

/-! ## C6 — upsert contract -/

/-- The node stored at the upserted id. -/
theorem upsert_get_self (st : InMemoryNodeRepository) (t : Uuid)
    (node : KnowledgeNode) (now : Timestamp) :
    (st.upsert t node now).1.get t node.id =
      some (match alGet (st.tenantNodes t) node.id with
        | some existing =>
            { node with tenant_id := t, created_at := existing.created_at, updated_at := now }
        | none => { node with tenant_id := t, created_at := now, updated_at := now }) := by
  unfold InMemoryNodeRepository.upsert InMemoryNodeRepository.get
    InMemoryNodeRepository.tenantNodes
  cases h : alGet ((alGet st.tenants t).getD []) node.id <;>
    simp [h, alGet_alSet_self]

/-- C6 node for tenant 1, id 5. -/
def c6NodeA : KnowledgeNode :=
  { id := 5, tenant_id := 1, kind := "note", payload_json := Json.raw "a"
    vector := none, provenance := none, policy := none, created_at := 0, updated_at := 0 }

/-- C6 node for tenant 2 with the same id 5. -/
def c6NodeB : KnowledgeNode :=
  { id := 5, tenant_id := 2, kind := "note", payload_json := Json.raw "b"
    vector := none, provenance := none, policy := none, created_at := 0, updated_at := 0 }

/-- The Postgres table after tenant 1 creates the id-5 row. -/
def c6Tbl1 : PgNodeTable := ((PgNodeTable.mk []).upsert 1 c6NodeA 9).1

/-- C6 as stated is false at a concrete input on the Postgres backend: tenant
1 holds the row with id 5, and id 5 is unseen for tenant 2 (`get 2 5 = none`),
yet tenant 2's upsert of a node with that id does not return `Created` and
insert: the conflict target is the global primary key on `id`, so the bare
statement fires its update against tenant 1's row and reports `Updated`,
while under the spec's row-level security the statement errors — either way
the claimed `Created`-and-insert does not happen. -/
theorem C6_counterexample :
    (c6Tbl1.get 2 c6NodeB.id = none) ∧
    ¬ ((c6Tbl1.upsert 2 c6NodeB 20).2 = UpsertOutcome.created) ∧
    ((c6Tbl1.upsert 2 c6NodeB 20).2 = UpsertOutcome.updated) ∧
    (c6Tbl1.upsertRls 2 c6NodeB 20 = Except.error "row-level security violation") :=
  ⟨by decide, by decide, by decide, rfl⟩

/-- C6 amended: the in-memory contract holds as stated — `Created` and insert
when the id is unseen for the tenant, else `Updated` replacing
kind/payload/provenance/policy, preserving `created_at` and stamping
`updated_at`, with double upsert giving `Updated` and an unchanged
`created_at`. On Postgres the conflict target is the global primary key, so
"unseen" must be read globally: a globally fresh id inserts with `Created`; a
conflict with the calling tenant's own row updates it in place with
`Updated`; a conflict with another tenant's row is rejected by row-level
security rather than ever returning `Created`; and double-upserting a
globally fresh id gives `Updated` with `created_at` preserved. -/
theorem C6_upsert_contract_amended :
    (∀ (st : InMemoryNodeRepository) (t : Uuid) (node : KnowledgeNode) (now : Timestamp),
       alGet (st.tenantNodes t) node.id = none →
       (st.upsert t node now).2 = UpsertOutcome.created ∧
       (st.upsert t node now).1.get t node.id =
         some { node with tenant_id := t, created_at := now, updated_at := now }) ∧
    (∀ (st : InMemoryNodeRepository) (t : Uuid) (node old : KnowledgeNode) (now : Timestamp),
       alGet (st.tenantNodes t) node.id = some old →
       (st.upsert t node now).2 = UpsertOutcome.updated ∧
       (st.upsert t node now).1.get t node.id =
         some { node with tenant_id := t, created_at := old.created_at, updated_at := now }) ∧
    (∀ (st : InMemoryNodeRepository) (t : Uuid) (node : KnowledgeNode) (now1 now2 : Timestamp),
       alGet (st.tenantNodes t) node.id = none →
       (((st.upsert t node now1).1).upsert t node now2).2 = UpsertOutcome.updated ∧
       (((st.upsert t node now1).1).upsert t node now2).1.get t node.id =
         some { node with tenant_id := t, created_at := now1, updated_at := now2 }) ∧
    (∀ (tbl : PgNodeTable) (t : Uuid) (node : KnowledgeNode) (now : Timestamp),
       (∀ r ∈ tbl.rows, r.id ≠ node.id) →
       tbl.upsertRls t node now =
         Except.ok (⟨tbl.rows ++ [{ node with tenant_id := t, vector := none, created_at := now, updated_at := now }]⟩,
           UpsertOutcome.created)) ∧
    (∀ (tbl : PgNodeTable) (t : Uuid) (node r0 : KnowledgeNode) (now : Timestamp),
       r0 ∈ tbl.rows → r0.id = node.id →
       (∀ r ∈ tbl.rows, r.id = node.id → r.tenant_id = t) →
       tbl.upsertRls t node now = Except.ok (tbl.upsert t node now) ∧
       (tbl.upsert t node now).2 = UpsertOutcome.updated ∧
       { r0 with kind := node.kind, payload_json := node.payload_json,
                 provenance := node.provenance, policy := node.policy,
                 updated_at := now } ∈ (tbl.upsert t node now).1.rows) ∧
    (∀ (tbl : PgNodeTable) (t : Uuid) (node r0 : KnowledgeNode) (now : Timestamp),
       r0 ∈ tbl.rows → r0.id = node.id → r0.tenant_id ≠ t →
       tbl.upsertRls t node now = Except.error "row-level security violation") ∧
    (∀ (tbl : PgNodeTable) (t : Uuid) (node : KnowledgeNode) (now1 now2 : Timestamp),
       (∀ r ∈ tbl.rows, r.id ≠ node.id) →
       ((tbl.upsert t node now1).1).upsertRls t node now2 =
         Except.ok (((tbl.upsert t node now1).1).upsert t node now2) ∧
       (((tbl.upsert t node now1).1).upsert t node now2).2 = UpsertOutcome.updated ∧
       { node with tenant_id := t, vector := none, created_at := now1, updated_at := now2 } ∈
         (((tbl.upsert t node now1).1).upsert t node now2).1.rows) := by
  have pgCreated : ∀ (tbl : PgNodeTable) (t : Uuid) (node : KnowledgeNode) (now : Timestamp),
      (∀ r ∈ tbl.rows, r.id ≠ node.id) →
      (tbl.upsert t node now).2 = UpsertOutcome.created ∧
      (tbl.upsert t node now).1.rows =
        tbl.rows ++ [{ node with tenant_id := t, vector := none, created_at := now, updated_at := now }] := by
    intro tbl t node now hfresh
    have hany : tbl.rows.any (fun r => r.id == node.id) = false := by
      rw [List.any_eq_false]
      intro r hr
      simpa using hfresh r hr
    unfold PgNodeTable.upsert
    simp [hany]
  have pgUpdated : ∀ (tbl : PgNodeTable) (t : Uuid) (node r0 : KnowledgeNode) (now : Timestamp),
      r0 ∈ tbl.rows → r0.id = node.id →
      (tbl.upsert t node now).2 = UpsertOutcome.updated ∧
      { r0 with kind := node.kind, payload_json := node.payload_json,
                provenance := node.provenance, policy := node.policy,
                updated_at := now } ∈ (tbl.upsert t node now).1.rows := by
    intro tbl t node r0 now hmem hid
    have hany : tbl.rows.any (fun r => r.id == node.id) = true := by
      rw [List.any_eq_true]
      exact ⟨r0, hmem, by simpa using hid⟩
    unfold PgNodeTable.upsert
    simp only [hany, if_true]
    refine ⟨by trivial, ?_⟩
    have := List.mem_map_of_mem (f := fun r =>
      if r.id == node.id then
        ({ r with kind := node.kind, payload_json := node.payload_json,
                  provenance := node.provenance, policy := node.policy,
                  updated_at := now } : KnowledgeNode)
      else r) hmem
    simpa [beq_iff_eq.mpr hid] using this
  have rlsPass : ∀ (tbl : PgNodeTable) (t : Uuid) (node : KnowledgeNode) (now : Timestamp),
      (∀ r ∈ tbl.rows, r.id = node.id → r.tenant_id = t) →
      tbl.upsertRls t node now = Except.ok (tbl.upsert t node now) := by
    intro tbl t node now h
    have hany : tbl.rows.any (fun r => r.id == node.id && !(r.tenant_id == t)) = false := by
      rw [List.any_eq_false]
      intro r hr
      simp only [Bool.and_eq_true, Bool.not_eq_eq_eq_not, Bool.not_true, beq_iff_eq,
        beq_eq_false_iff_ne, ne_eq, not_and]
      intro hid
      simp [h r hr hid]
    simp [PgNodeTable.upsertRls, hany]
  have rlsBlock : ∀ (tbl : PgNodeTable) (t : Uuid) (node r0 : KnowledgeNode) (now : Timestamp),
      r0 ∈ tbl.rows → r0.id = node.id → r0.tenant_id ≠ t →
      tbl.upsertRls t node now = Except.error "row-level security violation" := by
    intro tbl t node r0 now hmem hid hten
    have hany : tbl.rows.any (fun r => r.id == node.id && !(r.tenant_id == t)) = true := by
      rw [List.any_eq_true]
      exact ⟨r0, hmem, by simp [hid, hten]⟩
    simp [PgNodeTable.upsertRls, hany]
  refine ⟨?_, ?_, ?_, ?_, ?_, rlsBlock, ?_⟩
  · intro st t node now h
    refine ⟨upsert_outcome_created st t node now h, ?_⟩
    rw [upsert_get_self, h]
  · intro st t node old now h
    refine ⟨upsert_outcome_updated st t node now (by rw [h]; rfl), ?_⟩
    rw [upsert_get_self, h]
  · intro st t node now1 now2 h
    have h1 : alGet (((st.upsert t node now1).1).tenantNodes t) node.id =
        some { node with tenant_id := t, created_at := now1, updated_at := now1 } := by
      rw [upsert_tenantNodes, h]
      exact alGet_alSet_self _ _ _
    refine ⟨upsert_outcome_updated _ t node now2 (by rw [h1]; rfl), ?_⟩
    rw [upsert_get_self, h1]
  · intro tbl t node now hfresh
    have hpass := rlsPass tbl t node now (fun r hr hid => absurd hid (hfresh r hr))
    obtain ⟨hout, hrows⟩ := pgCreated tbl t node now hfresh
    rw [hpass]
    have h1 : tbl.upsert t node now =
        ((tbl.upsert t node now).1, (tbl.upsert t node now).2) := rfl
    rw [h1, hout]
    have h2 : (tbl.upsert t node now).1 =
        PgNodeTable.mk (tbl.rows ++ [{ node with tenant_id := t, vector := none, created_at := now, updated_at := now }]) := by
      cases hu : (tbl.upsert t node now).1 with
      | mk rows => rw [hu] at hrows; simp at hrows; rw [hrows]
    rw [h2]
  · intro tbl t node r0 now hmem hid hall
    refine ⟨rlsPass tbl t node now hall, ?_⟩
    exact pgUpdated tbl t node r0 now hmem hid
  · intro tbl t node now1 now2 hfresh
    obtain ⟨_, hrows⟩ := pgCreated tbl t node now1 hfresh
    have hall : ∀ r ∈ ((tbl.upsert t node now1).1).rows, r.id = node.id → r.tenant_id = t := by
      intro r hr hid
      rw [hrows] at hr
      rcases List.mem_append.mp hr with h | h
      · exact absurd hid (hfresh r h)
      · simp only [List.mem_singleton] at h
        subst h
        rfl
    have hmem : ({ node with tenant_id := t, vector := none, created_at := now1, updated_at := now1 } : KnowledgeNode) ∈
        ((tbl.upsert t node now1).1).rows := by
      rw [hrows]; simp
    obtain ⟨hout, hmem2⟩ := pgUpdated ((tbl.upsert t node now1).1) t node _ now2 hmem rfl
    exact ⟨rlsPass ((tbl.upsert t node now1).1) t node now2 hall, hout, hmem2⟩

/-- Witness for C6's amended theorem at concrete inputs. -/
theorem C6_amended_witness :
    ((InMemoryNodeRepository.emptyRepo.upsert 1 c6NodeA 9).2 = UpsertOutcome.created ∧
     (InMemoryNodeRepository.emptyRepo.upsert 1 c6NodeA 9).1.get 1 c6NodeA.id =
       some { c6NodeA with tenant_id := 1, created_at := 9, updated_at := 9 }) ∧
    (((InMemoryNodeRepository.emptyRepo.upsert 1 c6NodeA 9).1.upsert 1 c6NodeA 12).2 =
        UpsertOutcome.updated ∧
     ((InMemoryNodeRepository.emptyRepo.upsert 1 c6NodeA 9).1.upsert 1 c6NodeA 12).1.get 1 c6NodeA.id =
       some { c6NodeA with tenant_id := 1, created_at := 9, updated_at := 12 }) ∧
    ((PgNodeTable.mk []).upsertRls 1 c6NodeA 9 =
       Except.ok (⟨[] ++ [{ c6NodeA with tenant_id := 1, vector := none, created_at := 9, updated_at := 9 }]⟩,
         UpsertOutcome.created)) ∧
    (c6Tbl1.upsertRls 1 c6NodeB 12 = Except.ok (c6Tbl1.upsert 1 c6NodeB 12) ∧
     (c6Tbl1.upsert 1 c6NodeB 12).2 = UpsertOutcome.updated ∧
     { ({ c6NodeA with created_at := 9, updated_at := 9 } : KnowledgeNode) with
         kind := c6NodeB.kind, payload_json := c6NodeB.payload_json,
         provenance := c6NodeB.provenance, policy := c6NodeB.policy,
         updated_at := 12 } ∈ (c6Tbl1.upsert 1 c6NodeB 12).1.rows) ∧
    (c6Tbl1.upsertRls 2 c6NodeB 20 = Except.error "row-level security violation") ∧
    (c6Tbl1.upsertRls 1 c6NodeA 12 = Except.ok (c6Tbl1.upsert 1 c6NodeA 12) ∧
     (c6Tbl1.upsert 1 c6NodeA 12).2 = UpsertOutcome.updated ∧
     { c6NodeA with tenant_id := 1, vector := none, created_at := 9, updated_at := 12 } ∈
       (c6Tbl1.upsert 1 c6NodeA 12).1.rows) :=
  ⟨C6_upsert_contract_amended.1 InMemoryNodeRepository.emptyRepo 1 c6NodeA 9 rfl,
   C6_upsert_contract_amended.2.2.1 InMemoryNodeRepository.emptyRepo 1 c6NodeA 9 12 rfl,
   C6_upsert_contract_amended.2.2.2.1 (PgNodeTable.mk []) 1 c6NodeA 9 (by simp),
   C6_upsert_contract_amended.2.2.2.2.1 c6Tbl1 1 c6NodeB
     ({ c6NodeA with created_at := 9, updated_at := 9 }) 12
     (by decide) (by decide) (by decide),
   C6_upsert_contract_amended.2.2.2.2.2.1 c6Tbl1 2 c6NodeB
     ({ c6NodeA with created_at := 9, updated_at := 9 }) 20
     (by decide) (by decide) (by decide),
   C6_upsert_contract_amended.2.2.2.2.2.2 (PgNodeTable.mk []) 1 c6NodeA 9 12 (by simp)⟩

/-! ## C9 — similarity ranking -/

/-- A stored node with vector `[1, 0]`. -/
def c9NodeA : KnowledgeNode :=
  { id := 10, tenant_id := 1, kind := "note", payload_json := Json.raw "a"
    vector := some [1, 0], provenance := none, policy := none
    created_at := 1, updated_at := 1 }

/-- A stored node with vector `[0, 1]`. -/
def c9NodeB : KnowledgeNode :=
  { id := 11, tenant_id := 1, kind := "note", payload_json := Json.raw "b"
    vector := some [0, 1], provenance := none, policy := none
    created_at := 2, updated_at := 2 }

/-- A stored node with vector `[0.9, 0.1]`. -/
def c9NodeC : KnowledgeNode :=
  { id := 12, tenant_id := 1, kind := "note", payload_json := Json.raw "c"
    vector := some [9/10, 1/10], provenance := none, policy := none
    created_at := 3, updated_at := 3 }

/-- The store holding the three vectors of the similarity example. -/
def c9Store : InMemoryNodeRepository :=
  ⟨[(1, [(10, c9NodeA), (11, c9NodeB), (12, c9NodeC)])]⟩

/-- Every scored pair pairs a node with its own dot product against the query. -/
theorem scored_fst_eq (m : List (Uuid × KnowledgeNode)) (q : List Rat)
    (p : Rat × KnowledgeNode)
    (hp : p ∈ (m.map (fun x => x.2)).filterMap
      (fun (n : KnowledgeNode) => n.vector.map (fun cand => (dotProduct cand q, n)))) :
    p.1 = dotProduct (p.2.vector.getD []) q ∧
    p.2 ∈ m.map (fun x => x.2) ∧ p.2.vector.isSome := by
  rw [List.mem_filterMap] at hp
  obtain ⟨a, ha, hmap⟩ := hp
  cases hv : a.vector with
  | none => rw [hv] at hmap; simp at hmap
  | some cand =>
      rw [hv] at hmap
      have heq : (dotProduct cand q, a) = p := by simpa using hmap
      cases heq
      exact ⟨by simp [hv], ha, by simp [hv]⟩

/-- C9: `search_similar` on the in-memory backend returns only nodes of the
queried tenant that carry a stored vector, ranked descending by dot-product
score and truncated to `limit`; the empty query vector yields an empty
result; and on the stored vectors `[1,0]`, `[0,1]`, `[0.9,0.1]` with query
`[1,0]` and limit 2 it returns the first and third nodes in that order. -/
theorem C9_similarity_ranking :
    (∀ (st : InMemoryNodeRepository) (t : Uuid) (limit : Nat),
       st.search_similar t [] limit = []) ∧
    (∀ (st : InMemoryNodeRepository) (t : Uuid) (q : List Rat) (limit : Nat)
       (n : KnowledgeNode), n ∈ st.search_similar t q limit →
       n ∈ (st.tenantNodes t).map (fun p => p.2) ∧ n.vector.isSome) ∧
    (∀ (st : InMemoryNodeRepository) (t : Uuid) (q : List Rat) (limit : Nat),
       (st.search_similar t q limit).Pairwise
         (fun a b => dotProduct (b.vector.getD []) q ≤ dotProduct (a.vector.getD []) q)) ∧
    (∀ (st : InMemoryNodeRepository) (t : Uuid) (q : List Rat) (limit : Nat),
       (st.search_similar t q limit).length ≤ limit) ∧
    c9Store.search_similar 1 [1, 0] 2 = [c9NodeA, c9NodeC] := by
  refine ⟨?_, ?_, ?_, ?_, ?_⟩
  · intro st t limit
    unfold InMemoryNodeRepository.search_similar
    simp
  · intro st t q limit n hn
    unfold InMemoryNodeRepository.search_similar at hn
    by_cases hq : q.isEmpty
    · simp [hq] at hn
    · simp only [hq, Bool.false_eq_true, if_false] at hn
      cases halg : alGet st.tenants t with
      | none => rw [halg] at hn; simp at hn
      | some m =>
          rw [halg] at hn
          simp only [List.mem_map] at hn
          obtain ⟨p, hp, hpn⟩ := hn
          have hp2 : p ∈ (List.insertionSort scoreLe
              ((m.map (fun x => x.2)).filterMap
                (fun (nd : KnowledgeNode) => nd.vector.map (fun cand => (dotProduct cand q, nd))))) :=
            List.mem_of_mem_take hp
          have hp3 := (List.mem_insertionSort scoreLe).mp hp2
          obtain ⟨_, hmem, hvec⟩ := scored_fst_eq m q p hp3
          have htm : st.tenantNodes t = m := by
            simp [InMemoryNodeRepository.tenantNodes, halg]
          rw [htm]
          exact ⟨hpn ▸ hmem, hpn ▸ hvec⟩
  · intro st t q limit
    unfold InMemoryNodeRepository.search_similar
    by_cases hq : q.isEmpty
    · simp [hq]
    · simp only [hq, Bool.false_eq_true, if_false]
      cases halg : alGet st.tenants t with
      | none => simp
      | some m =>
          have hsorted : (List.insertionSort scoreLe
              ((m.map (fun x => x.2)).filterMap
                (fun (nd : KnowledgeNode) => nd.vector.map (fun cand => (dotProduct cand q, nd))))).Pairwise scoreLe :=
            List.sorted_insertionSort scoreLe _
          have htake := hsorted.sublist (List.take_sublist limit _)
          rw [List.pairwise_map]
          refine htake.imp_of_mem ?_
          intro a b ha hb hab
          have ha2 := scored_fst_eq m q a ((List.mem_insertionSort scoreLe).mp (List.mem_of_mem_take ha))
          have hb2 := scored_fst_eq m q b ((List.mem_insertionSort scoreLe).mp (List.mem_of_mem_take hb))
          rw [← ha2.1, ← hb2.1]
          exact hab
  · intro st t q limit
    unfold InMemoryNodeRepository.search_similar
    by_cases hq : q.isEmpty
    · simp [hq]
    · simp only [hq, Bool.false_eq_true, if_false]
      cases halg : alGet st.tenants t with
      | none => simp
      | some m => simp [List.length_take]
  · unfold InMemoryNodeRepository.search_similar
    norm_num [c9Store, c9NodeA, c9NodeB, c9NodeC, alGet, dotProduct,
      List.insertionSort, List.orderedInsert, scoreLe]

/-- Witness for C9: the empty-query clause and the tenant/vector-membership
clause applied at the concrete three-vector store. -/
theorem C9_witness :
    c9Store.search_similar 1 [] 2 = [] ∧
    (c9NodeA ∈ (c9Store.tenantNodes 1).map (fun p => p.2) ∧ c9NodeA.vector.isSome) :=
  ⟨C9_similarity_ranking.1 c9Store 1 2,
   C9_similarity_ranking.2.1 c9Store 1 [1, 0] 2 c9NodeA
     (by rw [C9_similarity_ranking.2.2.2.2]; simp)⟩

/-! ## C1 — capsule ingest eventing -/

/-- Config for the supersession scenario: event bus enabled, slug `acme`. -/
def c1Cfg : AppConfig :=
  { default_tenant_id := 7, tenant_slugs := [("acme", 3)], scedge_event_bus_enabled := true }

/-- First ingest of key `K` with hash `h1`. -/
def c1Body1 : CapsuleStoreBody :=
  { tenant := some "acme"
    capsule := { key := "K"
                 artifact := { answer := "a1"
                               policy := { tenant := "acme", phi := false, pii := false,
                                           region := none, compliance_tags := [] }
                               provenance := [], metrics := none, ttl_seconds := none,
                               hash := "h1", metadata := none }
                 expires_at := none } }

/-- Second ingest of the same key `K` with a different hash `h2`. -/
def c1Body2 : CapsuleStoreBody :=
  { tenant := some "acme"
    capsule := { key := "K"
                 artifact := { answer := "a2"
                               policy := { tenant := "acme", phi := false, pii := false,
                                           region := none, compliance_tags := [] }
                               provenance := [], metrics := none, ttl_seconds := none,
                               hash := "h2", metadata := none }
                 expires_at := none } }

/-- C1: evaluating `api_capsule_store` on the claim's own scenario — empty
store, event bus enabled, ingest key `K` with hash `h1`, then key `K` with
hash `h2 ≠ h1` — shows the second call publishes an `UPSERT_NODE` event and
no `SUPERSEDED_BY` event: the node id is derived from `(key, hash)`, so the
changed hash yields a fresh id, the upsert outcome is `Created`, and the
`SUPERSEDED_BY` branch (which requires `Updated`) never fires. This
contradicts the claimed supersession semantics; the stored-but-superseded
`h1` node also remains in the store. -/
theorem C1_supersession_event_bug :
    (api_capsule_store c1Cfg InMemoryNodeRepository.emptyRepo c1Body1 100 10).events =
      [GraphEvent.upsertNode "acme" "K" "h1"] ∧
    (api_capsule_store c1Cfg
        (api_capsule_store c1Cfg InMemoryNodeRepository.emptyRepo c1Body1 100 10).store
        c1Body2 101 20).events =
      [GraphEvent.upsertNode "acme" "K" "h2"] ∧
    (api_capsule_store c1Cfg
        (api_capsule_store c1Cfg InMemoryNodeRepository.emptyRepo c1Body1 100 10).store
        c1Body2 101 20).outcome = some UpsertOutcome.created ∧
    ((api_capsule_store c1Cfg
        (api_capsule_store c1Cfg InMemoryNodeRepository.emptyRepo c1Body1 100 10).store
        c1Body2 101 20).store.tenantNodes 3).length = 2 := by
  decide

/-! ## C3 — tenant isolation -/

/-- An association-list hit is a member. -/
theorem alGet_eq_some_mem {β : Type} (m : List (Uuid × β)) (k : Uuid) (v : β)
    (h : alGet m k = some v) : (k, v) ∈ m := by
  induction m with
  | nil => simp [alGet] at h
  | cons p rest ih =>
      rw [alGet_cons] at h
      by_cases hp : p.1 = k
      · rw [beq_iff_eq.mpr hp] at h
        simp only [if_true] at h
        cases h
        subst hp
        exact List.mem_cons_self _ _
      · rw [beq_eq_false_iff_ne.mpr hp] at h
        simp only [Bool.false_eq_true, if_false] at h
        exact List.mem_cons_of_mem _ (ih h)

/-- Insert-or-replace adds only the new binding. -/
theorem alSet_mem_or {β : Type} (m : List (Uuid × β)) (k : Uuid) (v : β)
    (p : Uuid × β) (h : p ∈ alSet m k v) : p ∈ m ∨ p = (k, v) := by
  induction m with
  | nil => simp [alSet] at h; right; exact h
  | cons q rest ih =>
      by_cases hq : q.1 = k
      · rw [show alSet (q :: rest) k v = (k, v) :: rest by simp [alSet, beq_iff_eq.mpr hq]] at h
        rcases List.mem_cons.mp h with h | h
        · right; exact h
        · left; exact List.mem_cons_of_mem _ h
      · rw [show alSet (q :: rest) k v = q :: alSet rest k v by
            simp [alSet, beq_eq_false_iff_ne.mpr hq]] at h
        rcases List.mem_cons.mp h with h | h
        · left; exact h ▸ List.mem_cons_self _ _
        · rcases ih h with h | h
          · left; exact List.mem_cons_of_mem _ h
          · right; exact h

/-- Well-formedness of the in-memory store: every node sits in its own
tenant's map with a matching `tenant_id` (established by `upsert`, which
stamps `tenant_id` before inserting). -/
def InMemoryNodeRepository.wf (st : InMemoryNodeRepository) : Prop :=
  ∀ p ∈ st.tenants, ∀ q ∈ p.2, q.2.tenant_id = p.1

theorem wf_emptyRepo : InMemoryNodeRepository.emptyRepo.wf := by
  intro p hp
  simp [InMemoryNodeRepository.emptyRepo] at hp

theorem wf_upsert (st : InMemoryNodeRepository) (t : Uuid) (node : KnowledgeNode)
    (now : Timestamp) (hwf : st.wf) : ((st.upsert t node now).1).wf := by
  have hstep : ∀ (nd : KnowledgeNode), nd.tenant_id = t →
      ∀ p ∈ alSet st.tenants t (alSet (st.tenantNodes t) nd.id nd), ∀ q ∈ p.2,
        q.2.tenant_id = p.1 := by
    intro nd hnd p hp q hq
    rcases alSet_mem_or _ _ _ _ hp with hp | hp
    · exact hwf p hp q hq
    · cases hp
      rcases alSet_mem_or _ _ _ _ hq with hq | hq
      · cases halg : alGet st.tenants t with
        | none =>
            rw [show st.tenantNodes t = [] by
              simp [InMemoryNodeRepository.tenantNodes, halg]] at hq
            simp at hq
        | some m0 =>
            rw [show st.tenantNodes t = m0 by
              simp [InMemoryNodeRepository.tenantNodes, halg]] at hq
            exact hwf (t, m0) (alGet_eq_some_mem _ _ _ halg) q hq
      · cases hq; exact hnd
  unfold InMemoryNodeRepository.upsert InMemoryNodeRepository.wf
  cases halg : alGet (st.tenantNodes t) node.id with
  | some existing =>
      simp only [halg]
      exact hstep { node with tenant_id := t, created_at := existing.created_at, updated_at := now } rfl
  | none =>
      simp only [halg]
      exact hstep { node with tenant_id := t, created_at := now, updated_at := now } rfl

/-- The tenant map of a well-formed store holds only nodes stamped with that
tenant. -/
theorem wf_tenantNodes (st : InMemoryNodeRepository) (t : Uuid) (hwf : st.wf)
    (q : Uuid × KnowledgeNode) (hq : q ∈ st.tenantNodes t) : q.2.tenant_id = t := by
  cases halg : alGet st.tenants t with
  | none =>
      rw [show st.tenantNodes t = [] by
        simp [InMemoryNodeRepository.tenantNodes, halg]] at hq
      simp at hq
  | some m0 =>
      rw [show st.tenantNodes t = m0 by
        simp [InMemoryNodeRepository.tenantNodes, halg]] at hq
      exact hwf (t, m0) (alGet_eq_some_mem _ _ _ halg) q hq

/-- Every node returned by `query_by_kind` comes from the tenant's own map
(and matches the kind filter). -/
theorem query_by_kind_mem_filter (st : InMemoryNodeRepository) (t : Uuid)
    (kind : String) (limit : Nat) (cursor : Option Uuid) (n : KnowledgeNode)
    (hmem : n ∈ st.query_by_kind t kind limit cursor) :
    n ∈ ((st.tenantNodes t).map (fun p => p.2)).filter
      (fun (nd : KnowledgeNode) => nd.kind == kind) := by
  unfold InMemoryNodeRepository.query_by_kind at hmem
  cases halg : alGet st.tenants t with
  | none => rw [halg] at hmem; simp at hmem
  | some m =>
      rw [halg] at hmem
      have htm : st.tenantNodes t = m := by
        simp [InMemoryNodeRepository.tenantNodes, halg]
      rw [htm]
      have h3 := List.mem_of_mem_take hmem
      have h4 : n ∈ List.insertionSort nodeOrdLe
          ((m.map (fun p => p.2)).filter (fun (nd : KnowledgeNode) => nd.kind == kind)) := by
        rcases cursor with _ | cid
        · exact h3
        · have h5 : n ∈ (match List.findIdx? (fun (nd : KnowledgeNode) => nd.id == cid)
              (List.insertionSort nodeOrdLe
                ((m.map (fun (p : Uuid × KnowledgeNode) => p.2)).filter (fun (nd : KnowledgeNode) => nd.kind == kind))) with
            | some pos => List.drop (pos + 1) (List.insertionSort nodeOrdLe
                ((m.map (fun (p : Uuid × KnowledgeNode) => p.2)).filter (fun (nd : KnowledgeNode) => nd.kind == kind)))
            | none => List.insertionSort nodeOrdLe
                ((m.map (fun (p : Uuid × KnowledgeNode) => p.2)).filter (fun (nd : KnowledgeNode) => nd.kind == kind))) := h3
          rcases hidx : List.findIdx? (fun (nd : KnowledgeNode) => nd.id == cid)
              (List.insertionSort nodeOrdLe
                ((m.map (fun (p : Uuid × KnowledgeNode) => p.2)).filter (fun (nd : KnowledgeNode) => nd.kind == kind)))
            with _ | pos
          · rw [hidx] at h5; exact h5
          · rw [hidx] at h5; exact List.mem_of_mem_drop h5
      exact (List.mem_insertionSort nodeOrdLe).mp h4

/-- C3 counterexample node for tenant 1. -/
def c3NodeX : KnowledgeNode :=
  { id := 5, tenant_id := 1, kind := "note", payload_json := Json.raw "x"
    vector := none, provenance := none, policy := none, created_at := 0, updated_at := 0 }

/-- C3 counterexample node for tenant 2 with the same id. -/
def c3NodeY : KnowledgeNode :=
  { id := 5, tenant_id := 2, kind := "note", payload_json := Json.raw "y"
    vector := none, provenance := none, policy := none, created_at := 0, updated_at := 0 }

/-- C3 as stated is false at a concrete input: tenant 1 stores a node with id
5, tenant 2 then creates its own node `N` with the same id 5 (outcome
`Created`); the claim demands `get(T2, N.id) = none` for `T2 = 1 ≠ 2`, but the
read returns tenant 1's own same-id node. -/
theorem C3_counterexample :
    (2 : Uuid) ≠ 1 ∧
    (((InMemoryNodeRepository.emptyRepo.upsert 1 c3NodeX 10).1).upsert 2 c3NodeY 20).2 =
      UpsertOutcome.created ∧
    ¬ ((((InMemoryNodeRepository.emptyRepo.upsert 1 c3NodeX 10).1).upsert 2 c3NodeY 20).1.get
        1 c3NodeY.id = none) := by
  decide

/-- C3 amended: an upsert under tenant T1 never changes another tenant's
view, so `get(T2, N.id)` is `None` unless T2 itself holds a node with that id
— and a read never returns a node whose `tenant_id` differs from the tenant
argument, on either backend (the Postgres reads through RLS visibility, the
in-memory reads on a well-formed store, well-formedness being preserved by
every upsert from the empty store). -/
theorem C3_tenant_isolation_amended :
    (∀ (st : InMemoryNodeRepository) (t1 t2 : Uuid) (node : KnowledgeNode)
       (now : Timestamp) (i : Uuid), t1 ≠ t2 →
       ((st.upsert t1 node now).1).get t2 i = st.get t2 i) ∧
    (∀ (st : InMemoryNodeRepository) (t1 t2 : Uuid) (node : KnowledgeNode)
       (now : Timestamp), t1 ≠ t2 → st.get t2 node.id = none →
       ((st.upsert t1 node now).1).get t2 node.id = none) ∧
    (∀ (st : InMemoryNodeRepository) (t i : Uuid) (n : KnowledgeNode),
       st.wf → st.get t i = some n → n.tenant_id = t) ∧
    (∀ (st : InMemoryNodeRepository) (t : Uuid) (kind : String) (limit : Nat)
       (cursor : Option Uuid) (n : KnowledgeNode), st.wf →
       n ∈ st.query_by_kind t kind limit cursor → n.tenant_id = t) ∧
    (∀ (st : InMemoryNodeRepository) (t : Uuid) (q : List Rat) (limit : Nat)
       (n : KnowledgeNode), st.wf →
       n ∈ st.search_similar t q limit → n.tenant_id = t) ∧
    (∀ (st : InMemoryNodeRepository) (t : Uuid) (key : String) (n : KnowledgeNode),
       st.wf → st.get_by_key t key = some n → n.tenant_id = t) ∧
    (∀ (tbl : PgNodeTable) (t i : Uuid) (n : KnowledgeNode),
       tbl.get t i = some n → n.tenant_id = t) ∧
    (∀ (tbl : PgNodeTable) (t : Uuid) (kind : String) (limit : Nat)
       (cursor : Option Uuid) (n : KnowledgeNode),
       n ∈ tbl.query_by_kind t kind limit cursor → n.tenant_id = t) ∧
    (∀ (tbl : PgNodeTable) (t1 t2 : Uuid) (node : KnowledgeNode) (now : Timestamp),
       t1 ≠ t2 → (∀ r ∈ tbl.rows, r.id ≠ node.id) →
       ((tbl.upsert t1 node now).1).get t2 node.id = none) := by
  have hRlsTenant : ∀ (tbl : PgNodeTable) (t : Uuid) (r : KnowledgeNode),
      r ∈ tbl.rlsVisible t → r.tenant_id = t := by
    intro tbl t r hr
    have := List.of_mem_filter hr
    simpa using this
  have hview : ∀ (st : InMemoryNodeRepository) (t1 t2 : Uuid) (node : KnowledgeNode)
      (now : Timestamp) (i : Uuid), t1 ≠ t2 →
      ((st.upsert t1 node now).1).get t2 i = st.get t2 i := by
    intro st t1 t2 node now i hne
    unfold InMemoryNodeRepository.upsert InMemoryNodeRepository.get
    cases halg : alGet (st.tenantNodes t1) node.id <;>
      simp [halg, alGet_alSet_ne _ _ _ _ hne]
  refine ⟨hview, ?_, ?_, ?_, ?_, ?_, ?_, ?_, ?_⟩
  · intro st t1 t2 node now hne hnone
    rw [hview st t1 t2 node now node.id hne]
    exact hnone
  · intro st t i n hwf hget
    unfold InMemoryNodeRepository.get at hget
    cases halg : alGet st.tenants t with
    | none => rw [halg] at hget; simp at hget
    | some m =>
        rw [halg] at hget
        simp only [Option.bind] at hget
        have hmem := alGet_eq_some_mem _ _ _ hget
        exact hwf (t, m) (alGet_eq_some_mem _ _ _ halg) (i, n) hmem
  · intro st t kind limit cursor n hwf hmem
    have h1 := query_by_kind_mem_filter st t kind limit cursor n hmem
    have h2 := List.mem_of_mem_filter h1
    rw [List.mem_map] at h2
    obtain ⟨q, hq, hqn⟩ := h2
    rw [← hqn]
    exact wf_tenantNodes st t hwf q hq
  · intro st t q limit n hwf hmem
    unfold InMemoryNodeRepository.search_similar at hmem
    by_cases hq : q.isEmpty
    · simp [hq] at hmem
    · simp only [hq, Bool.false_eq_true, if_false] at hmem
      cases halg : alGet st.tenants t with
      | none => rw [halg] at hmem; simp at hmem
      | some m =>
          rw [halg] at hmem
          simp only [List.mem_map] at hmem
          obtain ⟨p, hp, hpn⟩ := hmem
          obtain ⟨_, hmemv, _⟩ := scored_fst_eq m q p
            ((List.mem_insertionSort scoreLe).mp (List.mem_of_mem_take hp))
          rw [List.mem_map] at hmemv
          obtain ⟨qq, hqq, hqqn⟩ := hmemv
          have htm : st.tenantNodes t = m := by
            simp [InMemoryNodeRepository.tenantNodes, halg]
          have := wf_tenantNodes st t hwf qq (htm ▸ hqq)
          rw [← hpn, ← hqqn]; exact this
  · intro st t key n hwf hget
    unfold InMemoryNodeRepository.get_by_key at hget
    have hmem := List.mem_of_find?_eq_some hget
    rw [List.mem_map] at hmem
    obtain ⟨q, hq, hqn⟩ := hmem
    rw [← hqn]
    exact wf_tenantNodes st t hwf q hq
  · intro tbl t i n hget
    unfold PgNodeTable.get at hget
    rcases hfind : (tbl.rlsVisible t).find? (fun (r : KnowledgeNode) => r.id == i) with _ | r
    · rw [hfind] at hget; simp at hget
    · rw [hfind] at hget
      have heq : mapNodeRow r = n := by simpa using hget
      have hr := hRlsTenant tbl t r (List.mem_of_find?_eq_some hfind)
      rw [← heq]
      simpa [mapNodeRow] using hr
  · intro tbl t kind limit cursor n hmem
    unfold PgNodeTable.query_by_kind at hmem
    simp only [List.mem_map] at hmem
    obtain ⟨r, hr, hrn⟩ := hmem
    have hr2 := (List.mem_insertionSort pgNodeOrdLe).mp (List.mem_of_mem_take hr)
    have hr3 := List.mem_of_mem_filter hr2
    have := hRlsTenant tbl t r hr3
    rw [← hrn]
    simpa [mapNodeRow] using this
  · intro tbl t1 t2 node now hne hfresh
    have hany : tbl.rows.any (fun r => r.id == node.id) = false := by
      rw [List.any_eq_false]; intro r hr; simpa using hfresh r hr
    unfold PgNodeTable.upsert PgNodeTable.get PgNodeTable.rlsVisible
    simp only [hany, Bool.false_eq_true, if_false]
    have hfind : (((tbl.rows ++ [{ node with tenant_id := t1, vector := none, created_at := now, updated_at := now }]).filter
        (fun (r : KnowledgeNode) => r.tenant_id == t2)).find? (fun (r : KnowledgeNode) => r.id == node.id)) = none := by
      rw [List.find?_eq_none]
      intro r hr
      have hmem := List.mem_of_mem_filter hr
      have hten := List.of_mem_filter hr
      rcases List.mem_append.mp hmem with h | h
      · simpa using hfresh r h
      · simp only [List.mem_singleton] at h
        subst h
        have h2 : t1 = t2 := by simpa using hten
        exact absurd h2 hne
    rw [hfind]
    rfl

/-- Witness for C3's amended theorem at concrete inputs. -/
theorem C3_amended_witness :
    ((InMemoryNodeRepository.emptyRepo.upsert 1 c3NodeX 10).1.get 2 5 =
      InMemoryNodeRepository.emptyRepo.get 2 5) ∧
    ((InMemoryNodeRepository.emptyRepo.upsert 1 c3NodeX 10).1.get 2 c3NodeX.id = none) ∧
    (({ c3NodeX with tenant_id := 1, created_at := 10, updated_at := 10 } : KnowledgeNode).tenant_id = 1) ∧
    (((PgNodeTable.mk []).upsert 1 c3NodeX 10).1.get 2 c3NodeX.id = none) :=
  ⟨C3_tenant_isolation_amended.1 InMemoryNodeRepository.emptyRepo 1 2 c3NodeX 10 5
      (by decide),
   C3_tenant_isolation_amended.2.1 InMemoryNodeRepository.emptyRepo 1 2 c3NodeX 10
      (by decide) rfl,
   C3_tenant_isolation_amended.2.2.1
      (InMemoryNodeRepository.emptyRepo.upsert 1 c3NodeX 10).1 1 c3NodeX.id
      { c3NodeX with tenant_id := 1, created_at := 10, updated_at := 10 }
      (wf_upsert _ 1 c3NodeX 10 wf_emptyRepo) (by decide),
   C3_tenant_isolation_amended.2.2.2.2.2.2.2.2 (PgNodeTable.mk []) 1 2 c3NodeX 10
      (by decide) (by simp)⟩

/-! ## C4 — outbox claim exclusivity -/

/-- Erase the publication stamp, recovering the event as enqueued. -/
def clearPub (e : OutboxEvent) : OutboxEvent := { e with published_at := none }

/-- One repository call in an outbox history. -/
inductive OutboxOp where
  | enqueueOp (tenant : Uuid) (kind : OutboxKind) (payload : Json) (now : Timestamp)
  | claimOp (size : Nat) (now : Timestamp)

/-- An in-memory outbox execution: the repository state plus two history
accumulators for specification — the events as they were created, and the
batches (with their requested sizes) returned by the claim calls. -/
structure OutboxRun where
  repo : InMemoryOutboxRepository
  created : List OutboxEvent
  batches : List (Nat × List OutboxEvent)

/-- Execute one call against the in-memory outbox, recording history. -/
def stepOutbox (s : OutboxRun) : OutboxOp → OutboxRun
  | OutboxOp.enqueueOp t k p now =>
      { repo := (s.repo.enqueue t k p now).1
        created := s.created ++
          [{ id := (s.repo.events.length : Int) + 1, tenant_id := t, kind := k,
             payload := p, created_at := now, published_at := none }]
        batches := s.batches }
  | OutboxOp.claimOp size now =>
      { repo := (s.repo.claim_batch size now).1
        created := s.created
        batches := s.batches ++ [(size, (s.repo.claim_batch size now).2)] }

/-- Run a call sequence against the initially empty in-memory outbox. -/
def runOutbox (ops : List OutboxOp) : OutboxRun :=
  ops.foldl stepOutbox { repo := ⟨[]⟩, created := [], batches := [] }

/-- Invariant of in-memory outbox executions: the claimed batches, stamps
erased, concatenate (in claim order) with the still-queued events to exactly
the creation history; queued events are unpublished; every claimed event is
stamped; no batch exceeds its requested size. -/
def outboxInv (s : OutboxRun) : Prop :=
  ((((s.batches.map (fun b => b.2)).flatten).map clearPub) ++ s.repo.events = s.created) ∧
  (∀ e ∈ s.repo.events, e.published_at = none) ∧
  (∀ b ∈ s.batches, (∀ e ∈ b.2, e.published_at.isSome) ∧ b.2.length ≤ b.1)

/-- Stamping then erasing the stamp of unpublished events is the identity. -/
theorem map_stamp_clearPub (l : List OutboxEvent) (now : Timestamp)
    (h : ∀ e ∈ l, e.published_at = none) :
    (l.map (fun e => { e with published_at := some now })).map clearPub = l := by
  rw [List.map_map]
  have hcongr : ∀ e ∈ l,
      (clearPub ∘ fun e => { e with published_at := some now }) e = e := by
    intro e he
    have hpn := h e he
    simp only [Function.comp, clearPub]
    cases e
    simp_all
  calc l.map (clearPub ∘ fun e => { e with published_at := some now })
      = l.map id := List.map_congr_left hcongr
    _ = l := List.map_id _

theorem stepOutbox_inv (s : OutboxRun) (op : OutboxOp) (h : outboxInv s) :
    outboxInv (stepOutbox s op) := by
  obtain ⟨h1, h2, h3⟩ := h
  cases op with
  | enqueueOp t k p now =>
      refine ⟨?_, ?_, ?_⟩
      · simp only [stepOutbox, InMemoryOutboxRepository.enqueue]
        rw [← List.append_assoc, h1]
      · intro e he
        simp only [stepOutbox, InMemoryOutboxRepository.enqueue] at he
        rcases List.mem_append.mp he with he | he
        · exact h2 e he
        · simp only [List.mem_singleton] at he
          subst he
          rfl
      · intro b hb
        simp only [stepOutbox] at hb
        exact h3 b hb
  | claimOp size now =>
      refine ⟨?_, ?_, ?_⟩
      · simp only [stepOutbox, InMemoryOutboxRepository.claim_batch, List.map_append,
          List.flatten_append, List.map_cons, List.map_nil, List.flatten_cons,
          List.flatten_nil, List.append_nil]
        rw [map_stamp_clearPub _ now (fun e he => h2 e (List.mem_of_mem_take he))]
        rw [List.append_assoc, List.take_append_drop, h1]
      · intro e he
        simp only [stepOutbox, InMemoryOutboxRepository.claim_batch] at he
        exact h2 e (List.mem_of_mem_drop he)
      · intro b hb
        simp only [stepOutbox, InMemoryOutboxRepository.claim_batch] at hb
        rcases List.mem_append.mp hb with hb | hb
        · exact h3 b hb
        · simp only [List.mem_singleton] at hb
          subst hb
          constructor
          · intro e he
            simp only [List.mem_map] at he
            obtain ⟨e0, _, he0⟩ := he
            rw [← he0]
            rfl
          · simp only [List.length_map, List.length_take]
            exact le_trans (min_le_left _ _) (min_le_left _ _)

theorem runOutbox_inv (ops : List OutboxOp) : outboxInv (runOutbox ops) := by
  have hstep : ∀ (l : List OutboxOp) (s : OutboxRun), outboxInv s →
      outboxInv (l.foldl stepOutbox s) := by
    intro l
    induction l with
    | nil => intro s h; exact h
    | cons op rest ih => intro s h; exact ih _ (stepOutbox_inv s op h)
  refine hstep ops _ ⟨rfl, ?_, ?_⟩ <;> intro x hx <;> simp at hx

/-- A Postgres outbox execution: the table state plus history accumulators
(the events as created, and the claimed batches with requested sizes). -/
structure PgOutboxRun where
  tbl : PgOutboxTable
  created : List OutboxEvent
  batches : List (Nat × List OutboxEvent)

/-- Execute one call against the Postgres outbox, recording history. -/
def stepPgOutbox (s : PgOutboxRun) : OutboxOp → PgOutboxRun
  | OutboxOp.enqueueOp t k p now =>
      { tbl := (s.tbl.enqueue t k p now).1
        created := s.created ++
          [{ id := (s.tbl.rows.length : Int) + 1, tenant_id := t, kind := k,
             payload := p, created_at := now, published_at := none }]
        batches := s.batches }
  | OutboxOp.claimOp size now =>
      { tbl := (s.tbl.claim_batch size now).1
        created := s.created
        batches := s.batches ++ [(size, (s.tbl.claim_batch size now).2)] }

/-- Run a call sequence against the initially empty Postgres outbox table. -/
def runPgOutbox (ops : List OutboxOp) : PgOutboxRun :=
  ops.foldl stepPgOutbox { tbl := ⟨[]⟩, created := [], batches := [] }

/-- The `Utc::now()` readings of the enqueue calls, in call order; the real
clock makes these non-decreasing, which the run theorem takes as hypothesis. -/
def enqueueTimes : List OutboxOp → List Timestamp
  | [] => []
  | OutboxOp.enqueueOp _ _ _ now :: rest => now :: enqueueTimes rest
  | OutboxOp.claimOp _ _ :: rest => enqueueTimes rest

/-- Invariant of Postgres outbox executions: the table splits into a
published prefix — which is exactly the concatenation of the claimed
batches, in claim order — followed by the unpublished suffix; erasing
stamps recovers the creation history; row ids strictly increase and are
bounded by the row count; row creation times are non-decreasing; and no
batch exceeds its requested size. -/
def pgOutboxInv (s : PgOutboxRun) : Prop :=
  (∃ P U, s.tbl.rows = P ++ U ∧
     ((s.batches.map (fun b => b.2)).flatten = P) ∧
     (∀ e ∈ P, e.published_at.isSome) ∧
     (∀ e ∈ U, e.published_at = none)) ∧
  (s.tbl.rows.map clearPub = s.created) ∧
  ((s.tbl.rows.map (fun e => e.id)).Pairwise (· < ·)) ∧
  (∀ e ∈ s.tbl.rows, e.id ≤ (s.tbl.rows.length : Int)) ∧
  ((s.tbl.rows.map (fun e => e.created_at)).Pairwise (· ≤ ·)) ∧
  (∀ b ∈ s.batches, b.2.length ≤ b.1)

theorem stepPgOutbox_enqueue_inv (s : PgOutboxRun) (t : Uuid) (k : OutboxKind)
    (p : Json) (now : Timestamp) (h : pgOutboxInv s)
    (hts : ∀ e ∈ s.tbl.rows, e.created_at ≤ now) :
    pgOutboxInv (stepPgOutbox s (OutboxOp.enqueueOp t k p now)) := by
  obtain ⟨⟨P, U, hPU, hflat, hP, hU⟩, hcre, hids, hbound, htimes, hsz⟩ := h
  refine ⟨⟨P, U ++ [{ id := (s.tbl.rows.length : Int) + 1, tenant_id := t, kind := k, payload := p, created_at := now, published_at := none }], ?_, ?_, hP, ?_⟩, ?_, ?_, ?_, ?_, ?_⟩
  · simp only [stepPgOutbox, PgOutboxTable.enqueue]
    rw [hPU, List.append_assoc]
  · simpa only [stepPgOutbox] using hflat
  · intro e he
    rcases List.mem_append.mp he with he | he
    · exact hU e he
    · simp only [List.mem_singleton] at he
      subst he
      rfl
  · simp only [stepPgOutbox, PgOutboxTable.enqueue, List.map_append, List.map_cons,
      List.map_nil]
    rw [hcre]
    rfl
  · simp only [stepPgOutbox, PgOutboxTable.enqueue, List.map_append, List.map_cons,
      List.map_nil]
    rw [List.pairwise_append]
    refine ⟨hids, List.pairwise_singleton _ _, ?_⟩
    intro a ha b hb
    simp only [List.mem_singleton] at hb
    subst hb
    rw [List.mem_map] at ha
    obtain ⟨e, he, hea⟩ := ha
    have := hbound e he
    omega
  · intro e he
    simp only [stepPgOutbox, PgOutboxTable.enqueue] at he ⊢
    rw [List.length_append]
    rcases List.mem_append.mp he with he | he
    · have := hbound e he
      simp only [List.length_cons, List.length_nil]
      omega
    · simp only [List.mem_singleton] at he
      subst he
      simp only [List.length_cons, List.length_nil]
      omega
  · simp only [stepPgOutbox, PgOutboxTable.enqueue, List.map_append, List.map_cons,
      List.map_nil]
    rw [List.pairwise_append]
    refine ⟨htimes, List.pairwise_singleton _ _, ?_⟩
    intro a ha b hb
    simp only [List.mem_singleton] at hb
    subst hb
    rw [List.mem_map] at ha
    obtain ⟨e, he, hea⟩ := ha
    rw [← hea]
    exact hts e he
  · intro b hb
    simp only [stepPgOutbox] at hb
    exact hsz b hb

/-- Stamping preserves ids (used to carry id invariants across a claim). -/
theorem map_id_map_stamp (l : List OutboxEvent) (now : Timestamp) :
    (l.map (fun e => { e with published_at := some now })).map (fun e => e.id) =
      l.map (fun e => e.id) := by
  rw [List.map_map]
  rfl

/-- Stamping preserves creation times. -/
theorem map_created_map_stamp (l : List OutboxEvent) (now : Timestamp) :
    (l.map (fun e => { e with published_at := some now })).map (fun e => e.created_at) =
      l.map (fun e => e.created_at) := by
  rw [List.map_map]
  rfl

/-- Stamping commutes away under `clearPub`. -/
theorem map_clearPub_map_stamp (l : List OutboxEvent) (now : Timestamp) :
    (l.map (fun e => { e with published_at := some now })).map clearPub = l.map clearPub := by
  rw [List.map_map]
  rfl

/-- `List.contains` decided through membership (lawful `BEq`). -/
theorem contains_eq_false_of_not_mem {α : Type} [BEq α] [LawfulBEq α]
    (l : List α) (x : α) (h : ¬ x ∈ l) : l.contains x = false := by
  have := List.elem_eq_mem x l
  rw [show l.contains x = l.elem x from rfl, this]
  exact decide_eq_false h

/-- `List.contains` decided through membership (lawful `BEq`). -/
theorem contains_eq_true_of_mem {α : Type} [BEq α] [LawfulBEq α]
    (l : List α) (x : α) (h : x ∈ l) : l.contains x = true := by
  have := List.elem_eq_mem x l
  rw [show l.contains x = l.elem x from rfl, this]
  exact decide_eq_true h

theorem stepPgOutbox_claim_inv (s : PgOutboxRun) (size : Nat) (now : Timestamp)
    (h : pgOutboxInv s) :
    pgOutboxInv (stepPgOutbox s (OutboxOp.claimOp size now)) := by
  obtain ⟨⟨P, U, hPU, hflat, hP, hU⟩, hcre, hidsPW, hbound, htimes, hsz⟩ := h
  have hunpub : s.tbl.rows.filter (fun e => e.published_at.isNone) = U := by
    rw [hPU, List.filter_append]
    have h1 : P.filter (fun e => e.published_at.isNone) = [] := by
      rw [List.filter_eq_nil_iff]
      intro e he
      have h5 := hP e he
      cases hpe : e.published_at with
      | none => rw [hpe] at h5; simp at h5
      | some v => simp [hpe]
    have h2 : U.filter (fun e => e.published_at.isNone) = U := by
      rw [List.filter_eq_self]
      intro e he
      simp [hU e he]
    rw [h1, h2, List.nil_append]
  have hUsub : U.Sublist s.tbl.rows := by
    rw [hPU]; exact List.sublist_append_right P U
  have hUsorted : List.Sorted createdLe U := by
    have h3 : (U.map (fun e => e.created_at)).Pairwise (· ≤ ·) :=
      htimes.sublist (hUsub.map _)
    rw [List.pairwise_map] at h3
    exact h3
  have hsort : List.insertionSort createdLe U = U := hUsorted.insertionSort_eq
  -- id separation facts
  have hPU_ids : ∀ a ∈ P, ∀ b ∈ U, a.id < b.id := by
    have h4 := hidsPW
    rw [hPU, List.map_append, List.pairwise_append] at h4
    intro a ha b hb
    exact h4.2.2 _ (List.mem_map_of_mem _ ha) _ (List.mem_map_of_mem _ hb)
  have hUids : (U.map (fun e => e.id)).Pairwise (· < ·) :=
    hidsPW.sublist (hUsub.map _)
  have htd_ids : ∀ a ∈ U.take size, ∀ b ∈ U.drop size, a.id < b.id := by
    have h4 : ((U.take size ++ U.drop size).map (fun e => e.id)).Pairwise (· < ·) := by
      rw [List.take_append_drop]; exact hUids
    rw [List.map_append, List.pairwise_append] at h4
    intro a ha b hb
    exact h4.2.2 _ (List.mem_map_of_mem _ ha) _ (List.mem_map_of_mem _ hb)
  have hPnotin : ∀ e ∈ P, ¬ e.id ∈ (U.take size).map (fun x => x.id) := by
    intro e he hmem
    rw [List.mem_map] at hmem
    obtain ⟨x, hx, hxe⟩ := hmem
    have := hPU_ids e he x (List.mem_of_mem_take hx)
    omega
  have hDnotin : ∀ e ∈ U.drop size, ¬ e.id ∈ (U.take size).map (fun x => x.id) := by
    intro e he hmem
    rw [List.mem_map] at hmem
    obtain ⟨x, hx, hxe⟩ := hmem
    have := htd_ids x hx e he
    omega
  -- the mapped table splits into untouched prefix, stamped chunk, untouched tail
  have hmapf : s.tbl.rows.map (fun e =>
      if ((U.take size).map (fun e => e.id)).contains e.id
      then { e with published_at := some now } else e)
      = P ++ ((U.take size).map (fun e => { e with published_at := some now }) ++
          U.drop size) := by
    rw [hPU, List.map_append]
    congr 1
    · refine List.map_congr_left ?_ |>.trans (List.map_id P)
      intro e he
      rw [contains_eq_false_of_not_mem _ _ (hPnotin e he)]
      simp
    · have hUsplit : ∀ (g : OutboxEvent → OutboxEvent),
          U.map g = (U.take size ++ U.drop size).map g := by
        intro g; rw [List.take_append_drop]
      rw [hUsplit, List.map_append]
      congr 1
      · refine List.map_congr_left ?_
        intro e he
        rw [contains_eq_true_of_mem _ _ (List.mem_map_of_mem _ he)]
        simp
      · refine List.map_congr_left ?_ |>.trans (List.map_id _)
        intro e he
        rw [contains_eq_false_of_not_mem _ _ (hDnotin e he)]
        simp
  have hbatchf : (P ++ ((U.take size).map (fun (e : OutboxEvent) => { e with published_at := some now }) ++
        U.drop size)).filter (fun (e : OutboxEvent) =>
          ((U.take size).map (fun (e : OutboxEvent) => e.id)).contains e.id)
      = (U.take size).map (fun (e : OutboxEvent) => { e with published_at := some now }) := by
    rw [List.filter_append, List.filter_append]
    have f1 : P.filter (fun e => ((U.take size).map (fun x => x.id)).contains e.id) = [] := by
      rw [List.filter_eq_nil_iff]
      intro e he
      rw [contains_eq_false_of_not_mem _ _ (hPnotin e he)]
      simp
    have f2 : ((U.take size).map (fun (e : OutboxEvent) => { e with published_at := some now })).filter
        (fun (e : OutboxEvent) => ((U.take size).map (fun x => x.id)).contains e.id)
        = (U.take size).map (fun (e : OutboxEvent) => { e with published_at := some now }) := by
      rw [List.filter_eq_self]
      intro e he
      rw [List.mem_map] at he
      obtain ⟨e0, he0, heq⟩ := he
      subst heq
      have h6 : e0.id ∈ (U.take size).map (fun x => x.id) := List.mem_map_of_mem _ he0
      exact contains_eq_true_of_mem _ _ h6
    have f3 : (U.drop size).filter
        (fun e => ((U.take size).map (fun x => x.id)).contains e.id) = [] := by
      rw [List.filter_eq_nil_iff]
      intro e he
      rw [contains_eq_false_of_not_mem _ _ (hDnotin e he)]
      simp
    rw [f1, f2, f3, List.nil_append, List.append_nil]
  have hrows : (s.tbl.claim_batch size now).1.rows
      = P ++ ((U.take size).map (fun e => { e with published_at := some now }) ++
          U.drop size) := by
    simp only [PgOutboxTable.claim_batch, hunpub, hsort]
    exact hmapf
  have hbatch : (s.tbl.claim_batch size now).2
      = (U.take size).map (fun e => { e with published_at := some now }) := by
    simp only [PgOutboxTable.claim_batch, hunpub, hsort]
    rw [hmapf]
    exact hbatchf
  -- reassemble the invariant
  refine ⟨⟨P ++ (U.take size).map (fun e => { e with published_at := some now }),
      U.drop size, ?_, ?_, ?_, ?_⟩, ?_, ?_, ?_, ?_, ?_⟩
  · simp only [stepPgOutbox]
    rw [hrows, List.append_assoc]
  · simp only [stepPgOutbox, List.map_append, List.flatten_append, List.map_cons,
      List.map_nil, List.flatten_cons, List.flatten_nil, List.append_nil]
    rw [hflat, hbatch]
  · intro e he
    rcases List.mem_append.mp he with he | he
    · exact hP e he
    · rw [List.mem_map] at he
      obtain ⟨e0, _, heq⟩ := he
      rw [← heq]
      rfl
  · intro e he
    exact hU e (List.mem_of_mem_drop he)
  · simp only [stepPgOutbox]
    rw [hrows, List.map_append, List.map_append, map_clearPub_map_stamp]
    rw [← List.map_append, ← List.map_append]
    rw [List.take_append_drop, ← hPU, hcre]
  · simp only [stepPgOutbox]
    rw [hrows, List.map_append, List.map_append, map_id_map_stamp]
    rw [← List.map_append, ← List.map_append, List.take_append_drop, ← hPU]
    exact hidsPW
  · intro e he
    simp only [stepPgOutbox] at he ⊢
    rw [hrows] at he
    have hlen : (s.tbl.claim_batch size now).1.rows.length = s.tbl.rows.length := by
      rw [hrows, hPU]
      simp only [List.length_append, List.length_map]
      rw [← List.length_append, List.take_append_drop]
    rw [hlen]
    rcases List.mem_append.mp he with he | he
    · exact hbound e (by rw [hPU]; exact List.mem_append_left _ he)
    · rcases List.mem_append.mp he with he | he
      · rw [List.mem_map] at he
        obtain ⟨e0, he0, heq⟩ := he
        have : e0.id ≤ (s.tbl.rows.length : Int) := hbound e0
          (by rw [hPU]; exact List.mem_append_right _ (List.mem_of_mem_take he0))
        rw [← heq]
        exact this
      · exact hbound e (by rw [hPU]; exact List.mem_append_right _ (List.mem_of_mem_drop he))
  · simp only [stepPgOutbox]
    rw [hrows, List.map_append, List.map_append, map_created_map_stamp]
    rw [← List.map_append, ← List.map_append, List.take_append_drop, ← hPU]
    exact htimes
  · intro b hb
    simp only [stepPgOutbox] at hb
    rcases List.mem_append.mp hb with hb | hb
    · exact hsz b hb
    · simp only [List.mem_singleton] at hb
      subst hb
      rw [hbatch]
      simp only [List.length_map, List.length_take]
      exact min_le_left _ _

theorem runPgOutbox_inv (ops : List OutboxOp)
    (hchain : (enqueueTimes ops).Pairwise (· ≤ ·)) : pgOutboxInv (runPgOutbox ops) := by
  have hgen : ∀ (l : List OutboxOp) (s : PgOutboxRun), pgOutboxInv s →
      (enqueueTimes l).Pairwise (· ≤ ·) →
      (∀ tm ∈ enqueueTimes l, ∀ e ∈ s.tbl.rows, e.created_at ≤ tm) →
      pgOutboxInv (l.foldl stepPgOutbox s) := by
    intro l
    induction l with
    | nil => intro s h _ _; exact h
    | cons op rest ih =>
        intro s h hch hpend
        cases op with
        | claimOp size now =>
            refine ih _ (stepPgOutbox_claim_inv s size now h) hch ?_
            intro tm htm e he
            simp only [stepPgOutbox, PgOutboxTable.claim_batch] at he
            rw [List.mem_map] at he
            obtain ⟨e0, he0, heq⟩ := he
            have hc : e.created_at = e0.created_at := by
              rw [← heq]
              split <;> rfl
            rw [hc]
            exact hpend tm htm e0 he0
        | enqueueOp t k p now =>
            have hts : ∀ e ∈ s.tbl.rows, e.created_at ≤ now := by
              intro e he
              exact hpend now (by simp [enqueueTimes]) e he
            refine ih _ (stepPgOutbox_enqueue_inv s t k p now h hts) ?_ ?_
            · have h7 := hch
              simp only [enqueueTimes] at h7
              exact h7.of_cons
            · intro tm htm e he
              simp only [stepPgOutbox, PgOutboxTable.enqueue] at he
              rcases List.mem_append.mp he with he | he
              · exact hpend tm (by simp [enqueueTimes]; exact Or.inr htm) e he
              · simp only [List.mem_singleton] at he
                subst he
                have h7 := hch
                simp only [enqueueTimes] at h7
                exact List.rel_of_pairwise_cons h7 htm
  refine hgen ops _ ⟨⟨[], [], rfl, rfl, ?_, ?_⟩, rfl, ?_, ?_, ?_, ?_⟩ hchain ?_ <;>
    first
      | (intro x hx; simp [runPgOutbox] at hx)
      | (intro x hx y hy; simp [runPgOutbox] at hy)
      | exact List.Pairwise.nil

/-- C4: outbox claim exclusivity, for both backends, over every sequence of
enqueue and claim calls from the empty outbox. In-memory: the claimed
batches — with publication stamps erased — concatenate in claim order with
the still-queued events to exactly the creation history (so batches are
pairwise disjoint, claim the oldest events first, and no event is claimed
twice), every claimed event carries a publication stamp, no batch exceeds
its requested size, and once the queue is empty the batches cover exactly
all enqueued events. Postgres (non-decreasing enqueue clock): the table
splits into a published prefix that is exactly the concatenation of the
claimed batches followed by the unpublished suffix; erasing stamps recovers
the creation history; and once every row is published the batches cover
exactly all enqueued events. -/
theorem C4_outbox_claim_exclusivity :
    (∀ ops : List OutboxOp,
      ((((runOutbox ops).batches.map (fun b => b.2)).flatten).map clearPub) ++
          (runOutbox ops).repo.events = (runOutbox ops).created ∧
      (∀ b ∈ (runOutbox ops).batches,
        (∀ e ∈ b.2, e.published_at.isSome) ∧ b.2.length ≤ b.1) ∧
      ((runOutbox ops).repo.events = [] →
        (((runOutbox ops).batches.map (fun b => b.2)).flatten).map clearPub =
          (runOutbox ops).created)) ∧
    (∀ ops : List OutboxOp, (enqueueTimes ops).Pairwise (· ≤ ·) →
      (∃ P U, (runPgOutbox ops).tbl.rows = P ++ U ∧
        ((runPgOutbox ops).batches.map (fun b => b.2)).flatten = P ∧
        (∀ e ∈ P, e.published_at.isSome) ∧ (∀ e ∈ U, e.published_at = none)) ∧
      ((runPgOutbox ops).tbl.rows.map clearPub = (runPgOutbox ops).created) ∧
      (∀ b ∈ (runPgOutbox ops).batches, b.2.length ≤ b.1) ∧
      ((∀ e ∈ (runPgOutbox ops).tbl.rows, e.published_at.isSome) →
        (((runPgOutbox ops).batches.map (fun b => b.2)).flatten).map clearPub =
          (runPgOutbox ops).created)) := by
  constructor
  · intro ops
    obtain ⟨h1, h2, h3⟩ := runOutbox_inv ops
    refine ⟨h1, h3, ?_⟩
    intro hempty
    rw [hempty, List.append_nil] at h1
    exact h1
  · intro ops hchain
    obtain ⟨⟨P, U, hPU, hflat, hP, hU⟩, hcre, hidsPW, hbound, htimes, hsz⟩ :=
      runPgOutbox_inv ops hchain
    refine ⟨⟨P, U, hPU, hflat, hP, hU⟩, hcre, hsz, ?_⟩
    intro hall
    have hUnil : U = [] := by
      cases hUc : U with
      | nil => rfl
      | cons a t =>
          exfalso
          have ha : a ∈ U := by rw [hUc]; exact List.mem_cons_self _ _
          have h5 := hU a ha
          have h6 := hall a (by rw [hPU]; exact List.mem_append_right _ ha)
          rw [h5] at h6
          simp at h6
    rw [hPU, hUnil, List.append_nil] at hcre
    rw [hflat]
    exact hcre

/-- A concrete call sequence: two enqueues, a claim of one, a claim of five. -/
def c4Ops : List OutboxOp :=
  [OutboxOp.enqueueOp 1 OutboxKind.upsert (Json.raw "a") 1,
   OutboxOp.enqueueOp 1 OutboxKind.supersededBy (Json.raw "b") 2,
   OutboxOp.claimOp 1 5,
   OutboxOp.claimOp 5 6]

/-- Witness for C4 at the concrete call sequence. -/
theorem C4_witness :
    (((((runOutbox c4Ops).batches.map (fun b => b.2)).flatten).map clearPub) ++
        (runOutbox c4Ops).repo.events = (runOutbox c4Ops).created) ∧
    ((runPgOutbox c4Ops).tbl.rows.map clearPub = (runPgOutbox c4Ops).created) ∧
    ((((runPgOutbox c4Ops).batches.map (fun b => b.2)).flatten).map clearPub =
        (runPgOutbox c4Ops).created) :=
  ⟨(C4_outbox_claim_exclusivity.1 c4Ops).1,
   ((C4_outbox_claim_exclusivity.2 c4Ops (by decide)).2).1,
   ((C4_outbox_claim_exclusivity.2 c4Ops (by decide)).2).2.2 (by decide)⟩

/-! ## C2 — keyset pagination -/

/-- The node as stored by an upsert under tenant `t` at time `tm`. -/
def adjustNode (t : Uuid) (n : KnowledgeNode) (tm : Timestamp) : KnowledgeNode :=
  { n with tenant_id := t, created_at := tm, updated_at := tm }

theorem alGet_append {β : Type} (m1 m2 : List (Uuid × β)) (k : Uuid) :
    alGet (m1 ++ m2) k = match alGet m1 k with
      | some v => some v
      | none => alGet m2 k := by
  induction m1 with
  | nil => simp [alGet_nil]
  | cons p rest ih =>
      by_cases hp : p.1 = k
      · simp [List.cons_append, alGet_cons, beq_iff_eq.mpr hp]
      · simp [List.cons_append, alGet_cons, beq_eq_false_iff_ne.mpr hp, ih]

/-- Insert a sequence of (node, time) pairs in order via `upsert`. -/
def insertSeq (st : InMemoryNodeRepository) (t : Uuid) :
    List (KnowledgeNode × Timestamp) → InMemoryNodeRepository
  | [] => st
  | (n, tm) :: rest => insertSeq ((st.upsert t n tm).1) t rest

/-- Inserting fresh, id-distinct nodes appends them to the tenant map in
insertion order, stamped by `upsert`. -/
theorem insertSeq_tenantNodes (t : Uuid) :
    ∀ (pairs : List (KnowledgeNode × Timestamp)) (st : InMemoryNodeRepository),
    (∀ p ∈ pairs, alGet (st.tenantNodes t) p.1.id = none) →
    ((pairs.map (fun p => p.1.id)).Nodup) →
    (insertSeq st t pairs).tenantNodes t =
      st.tenantNodes t ++ pairs.map (fun p => (p.1.id, adjustNode t p.1 p.2)) := by
  intro pairs
  induction pairs with
  | nil => intro st _ _; simp [insertSeq]
  | cons pr rest ih =>
      intro st hfresh hnd
      obtain ⟨n, tm⟩ := pr
      have hfr : alGet (st.tenantNodes t) n.id = none :=
        hfresh (n, tm) (List.mem_cons_self _ _)
      have hstep : ((st.upsert t n tm).1).tenantNodes t =
          st.tenantNodes t ++ [(n.id, adjustNode t n tm)] := by
        rw [upsert_tenantNodes]
        simp only [hfr]
        exact alSet_of_get_none _ _ _ hfr
      have hfresh2 : ∀ p ∈ rest,
          alGet (((st.upsert t n tm).1).tenantNodes t) p.1.id = none := by
        intro p hp
        rw [hstep, alGet_append, hfresh p (List.mem_cons_of_mem _ hp)]
        have hne : n.id ≠ p.1.id := by
          intro heq
          have hnotin := (List.nodup_cons.mp hnd).1
          have hmm : p.1.id ∈ rest.map (fun p => p.1.id) := List.mem_map_of_mem _ hp
          rw [← heq] at hmm
          exact hnotin hmm
        simp [alGet_cons, beq_eq_false_iff_ne.mpr hne, alGet_nil]
      have hrec := ih ((st.upsert t n tm).1) hfresh2 (List.nodup_cons.mp hnd).2
      show (insertSeq ((st.upsert t n tm).1) t rest).tenantNodes t = _
      rw [hrec, hstep, List.append_assoc]
      rfl

/-- `position` of the j-th node's id in an id-distinct node list is `j`. -/
theorem findIdx_of_nodup (L : List KnowledgeNode) (j : Nat) (hj : j < L.length)
    (hnd : (L.map (fun n => n.id)).Nodup) :
    List.findIdx? (fun (n : KnowledgeNode) => n.id == (L.get ⟨j, hj⟩).id) L = some j := by
  rw [List.findIdx?_eq_some_iff_findIdx_eq]
  refine ⟨hj, ?_⟩
  rw [List.findIdx_eq hj]
  constructor
  · simp [List.get_eq_getElem]
  · intro j2 hj2
    have hj2' : j2 < L.length := lt_trans hj2 hj
    have hjm : j < (L.map (fun (n : KnowledgeNode) => n.id)).length := by
      rw [List.length_map]; exact hj
    have hj2m : j2 < (L.map (fun (n : KnowledgeNode) => n.id)).length := by
      rw [List.length_map]; exact hj2'
    have hne : L[j2].id ≠ L[j].id := by
      intro heq
      have hm1 : (L.map (fun (n : KnowledgeNode) => n.id))[j2] =
          (L.map (fun (n : KnowledgeNode) => n.id))[j] := by
        rw [List.getElem_map, List.getElem_map]
        exact heq
      have := (hnd.getElem_inj_iff).mp hm1
      omega
    simp [List.get_eq_getElem]
    exact fun h => absurd h hne

/-- Dropping `min k len` is the same as dropping `k`. -/
theorem drop_min_eq_drop {α : Type} (xs : List α) (k : Nat) :
    xs.drop (min k xs.length) = xs.drop k := by
  rcases le_or_lt k xs.length with h | h
  · rw [min_eq_left h]
  · rw [min_eq_right (le_of_lt h), List.drop_eq_nil_of_le (le_refl _),
      List.drop_eq_nil_of_le (le_of_lt h)]

/-- `query_by_kind` on a store whose tenant map holds exactly the sorted,
kind-homogeneous, id-distinct node list `L`: the cursor-less call pages from
the front, and the cursor at the j-th node's id pages from position `j + 1`. -/
theorem query_of_canonical (st : InMemoryNodeRepository) (t : Uuid) (K : String)
    (M : NodeMap) (halg : alGet st.tenants t = some M)
    (L : List KnowledgeNode) (hL : M.map (fun p => p.2) = L)
    (hkind : ∀ n ∈ L, n.kind = K)
    (hsorted : L.Pairwise nodeOrdLe) :
    (∀ k, st.query_by_kind t K k none = L.take k) ∧
    (∀ k (j : Nat) (hj : j < L.length), (L.map (fun n => n.id)).Nodup →
      st.query_by_kind t K k (some ((L.get ⟨j, hj⟩).id)) = (L.drop (j + 1)).take k) := by
  have hfilter : L.filter (fun n => n.kind == K) = L := by
    rw [List.filter_eq_self]
    intro n hn
    exact beq_iff_eq.mpr (hkind n hn)
  have hsortL : List.insertionSort nodeOrdLe L = L :=
    List.Sorted.insertionSort_eq hsorted
  constructor
  · intro k
    unfold InMemoryNodeRepository.query_by_kind
    rw [halg]
    simp only [hL, hfilter, hsortL]
  · intro k j hj hnd
    unfold InMemoryNodeRepository.query_by_kind
    rw [halg]
    simp only [hL, hfilter, hsortL]
    rw [findIdx_of_nodup L j hj hnd]

/-- The paging process of the claim: request a page, then re-query with the
last element's id as the next cursor, until a page comes back empty. `fuel`
bounds the recursion; any fuel at least the sequence length is enough. -/
def paginate (st : InMemoryNodeRepository) (t : Uuid) (kind : String) (k : Nat) :
    Nat → Option Uuid → List (List KnowledgeNode)
  | 0, _ => []
  | fuel + 1, cursor =>
      let page := st.query_by_kind t kind k cursor
      if h : page = [] then []
      else page :: paginate st t kind k fuel (some ((page.getLast h).id))

theorem paginate_flatten_aux (st : InMemoryNodeRepository) (t : Uuid) (K : String)
    (k : Nat) (L : List KnowledgeNode) (hk : 1 ≤ k)
    (hqj : ∀ (j : Nat) (hj : j < L.length),
      st.query_by_kind t K k (some ((L.get ⟨j, hj⟩).id)) = (L.drop (j + 1)).take k) :
    ∀ (fuel d : Nat) (cursor : Option Uuid), L.length ≤ d + fuel →
    st.query_by_kind t K k cursor = (L.drop d).take k →
    (paginate st t K k fuel cursor).flatten = L.drop d := by
  intro fuel
  induction fuel with
  | zero =>
      intro d cursor hlen hq
      rw [List.drop_eq_nil_of_le (by omega)]
      rfl
  | succ fuel ih =>
      intro d cursor hlen hq
      simp only [paginate, hq]
      by_cases hnil : (L.drop d).take k = []
      · rw [dif_pos hnil]
        rcases List.take_eq_nil_iff.mp hnil with h0 | hdnil
        · omega
        · rw [hdnil]
          rfl
      · rw [dif_neg hnil]
        have hclen : 0 < ((L.drop d).take k).length := List.length_pos.mpr hnil
        have hdlen : (L.drop d).length = L.length - d := List.length_drop d L
        have hd : d < L.length := by
          by_contra hcon
          exact hnil (by rw [List.drop_eq_nil_of_le (by omega)]; simp)
        have hclen2 : ((L.drop d).take k).length = min k (L.length - d) := by
          rw [List.length_take, hdlen]
        have hjlt : d + (((L.drop d).take k).length - 1) < L.length := by omega
        have hlast : ((L.drop d).take k).getLast hnil =
            L.get ⟨d + (((L.drop d).take k).length - 1), hjlt⟩ := by
          rw [List.getLast_eq_getElem]
          have hb1 : ((L.drop d).take k).length - 1 < ((L.drop d).take k).length := by
            omega
          rw [List.getElem_take]
          have hb2 : ((L.drop d).take k).length - 1 < (L.drop d).length := by
            omega
          rw [List.getElem_drop]
          simp [List.get_eq_getElem]
        rw [hlast]
        have hnext := hqj (d + (((L.drop d).take k).length - 1)) hjlt
        have hsucc : d + (((L.drop d).take k).length - 1) + 1 =
            d + ((L.drop d).take k).length := by omega
        rw [hsucc] at hnext
        have hdrop : L.drop (d + ((L.drop d).take k).length) =
            (L.drop d).drop ((L.drop d).take k).length := by
          rw [List.drop_drop]
        have hih := ih (d + ((L.drop d).take k).length)
          (some ((L.get ⟨d + (((L.drop d).take k).length - 1), hjlt⟩).id))
          (by omega) hnext
        rw [List.flatten_cons, hih, hdrop, List.length_take, drop_min_eq_drop]
        exact List.take_append_drop k (L.drop d)

/-- A note created at time 1 with id 1 (tenant 1). -/
def c2n1 : KnowledgeNode :=
  { id := 1, tenant_id := 1, kind := "note", payload_json := Json.raw "p1"
    vector := none, provenance := none, policy := none, created_at := 1, updated_at := 1 }

/-- A note created later, at time 2, with id 2 (tenant 1). -/
def c2n2 : KnowledgeNode :=
  { id := 2, tenant_id := 1, kind := "note", payload_json := Json.raw "p2"
    vector := none, provenance := none, policy := none, created_at := 2, updated_at := 2 }

/-- C2: the Postgres backend orders `query_by_kind` by `created_at DESC`:
on two notes created at times 1 then 2 it returns the later note first —
while the in-memory backend on the same data returns ascending order, and
in-memory keyset pagination is correct: for nodes of one kind inserted with
strictly increasing creation times and distinct ids, paging with any size
k ≥ 1 (cursor = previous page's last id) concatenates to exactly the full
insertion sequence, which also equals the single unlimited page. -/
theorem C2_keyset_pagination :
    ((PgNodeTable.mk [c2n1, c2n2]).query_by_kind 1 "note" 10 none =
      [mapNodeRow c2n2, mapNodeRow c2n1]) ∧
    ¬ ((PgNodeTable.mk [c2n1, c2n2]).query_by_kind 1 "note" 10 none =
      [mapNodeRow c2n1, mapNodeRow c2n2]) ∧
    ((InMemoryNodeRepository.mk [(1, [(1, c2n1), (2, c2n2)])]).query_by_kind 1 "note" 10 none =
      [c2n1, c2n2]) ∧
    (∀ (t : Uuid) (K : String) (k : Nat) (pairs : List (KnowledgeNode × Timestamp))
       (fuel : Nat),
      1 ≤ k →
      (∀ p ∈ pairs, p.1.kind = K) →
      ((pairs.map (fun p => p.1.id)).Nodup) →
      ((pairs.map (fun p => p.2)).Pairwise (· < ·)) →
      pairs.length ≤ fuel →
      ((paginate (insertSeq InMemoryNodeRepository.emptyRepo t pairs) t K k fuel none).flatten
        = pairs.map (fun p => adjustNode t p.1 p.2) ∧
       (insertSeq InMemoryNodeRepository.emptyRepo t pairs).query_by_kind t K
           pairs.length none
         = pairs.map (fun p => adjustNode t p.1 p.2))) := by
  refine ⟨by decide, by decide, by decide, ?_⟩
  intro t K k pairs fuel hk hkind hnd htimes hfuel
  cases hpairs : pairs with
  | nil =>
      subst hpairs
      have hquery : ∀ k' cursor,
          (insertSeq InMemoryNodeRepository.emptyRepo t []).query_by_kind t K k' cursor = [] := by
        intro k' cursor
        rfl
      constructor
      · cases fuel with
        | zero => rfl
        | succ fuel2 =>
            simp only [insertSeq, paginate, hquery]
            rfl
      · exact hquery 0 none
  | cons pr rest =>
      subst hpairs
      have htn := insertSeq_tenantNodes t (pr :: rest) InMemoryNodeRepository.emptyRepo
        (by intro p _; rfl) hnd
      have htn2 : (insertSeq InMemoryNodeRepository.emptyRepo t (pr :: rest)).tenantNodes t =
          (pr :: rest).map (fun p => (p.1.id, adjustNode t p.1 p.2)) := by
        rw [htn]; rfl
      have halg : alGet (insertSeq InMemoryNodeRepository.emptyRepo t (pr :: rest)).tenants t =
          some ((pr :: rest).map (fun p => (p.1.id, adjustNode t p.1 p.2))) := by
        cases halg0 : alGet (insertSeq InMemoryNodeRepository.emptyRepo t (pr :: rest)).tenants t with
        | none =>
            exfalso
            have : (insertSeq InMemoryNodeRepository.emptyRepo t (pr :: rest)).tenantNodes t = [] := by
              simp [InMemoryNodeRepository.tenantNodes, halg0]
            rw [htn2] at this
            simp at this
        | some m =>
            have : (insertSeq InMemoryNodeRepository.emptyRepo t (pr :: rest)).tenantNodes t = m := by
              simp [InMemoryNodeRepository.tenantNodes, halg0]
            rw [htn2] at this
            rw [this]
      have hL : ((pr :: rest).map (fun p => (p.1.id, adjustNode t p.1 p.2))).map
          (fun p => p.2) = (pr :: rest).map (fun p => adjustNode t p.1 p.2) := by
        rw [List.map_map]
        rfl
      have hkindL : ∀ n ∈ (pr :: rest).map (fun p => adjustNode t p.1 p.2), n.kind = K := by
        intro n hn
        rw [List.mem_map] at hn
        obtain ⟨p, hp, hpn⟩ := hn
        rw [← hpn]
        exact hkind p hp
      have hsorted : ((pr :: rest).map (fun p => adjustNode t p.1 p.2)).Pairwise nodeOrdLe := by
        rw [List.pairwise_map]
        have htimes2 := List.pairwise_map.mp htimes
        exact htimes2.imp (fun h => Or.inl h)
      have hndL : (((pr :: rest).map (fun p => adjustNode t p.1 p.2)).map
          (fun n => n.id)).Nodup := by
        rw [List.map_map]
        exact hnd
      obtain ⟨hq0, hqj⟩ := query_of_canonical
        (insertSeq InMemoryNodeRepository.emptyRepo t (pr :: rest)) t K
        ((pr :: rest).map (fun p => (p.1.id, adjustNode t p.1 p.2))) halg
        ((pr :: rest).map (fun p => adjustNode t p.1 p.2)) hL hkindL hsorted
      have hlenL : ((pr :: rest).map (fun p => adjustNode t p.1 p.2)).length =
          (pr :: rest).length := List.length_map _ _
      constructor
      · have hflat := paginate_flatten_aux
          (insertSeq InMemoryNodeRepository.emptyRepo t (pr :: rest)) t K k
          ((pr :: rest).map (fun p => adjustNode t p.1 p.2)) hk
          (fun j hj => hqj k j hj hndL) fuel 0 none
          (by rw [hlenL]; omega)
          (by rw [hq0 k, List.drop_zero])
        rw [List.drop_zero] at hflat
        exact hflat
      · rw [hq0 ((pr :: rest).length)]
        exact List.take_of_length_le (le_of_eq hlenL)

/-- Concrete note used by the C2 witness. -/
def c2pa : KnowledgeNode :=
  { id := 11, tenant_id := 1, kind := "note", payload_json := Json.raw "a"
    vector := none, provenance := none, policy := none, created_at := 0, updated_at := 0 }

/-- Concrete note used by the C2 witness. -/
def c2pb : KnowledgeNode :=
  { id := 12, tenant_id := 1, kind := "note", payload_json := Json.raw "b"
    vector := none, provenance := none, policy := none, created_at := 0, updated_at := 0 }

/-- Concrete note used by the C2 witness. -/
def c2pc : KnowledgeNode :=
  { id := 13, tenant_id := 1, kind := "note", payload_json := Json.raw "c"
    vector := none, provenance := none, policy := none, created_at := 0, updated_at := 0 }

/-- Witness for C2's pagination clause: three notes inserted at times 1, 2, 3
and paged with k = 2. -/
theorem C2_witness :
    ((paginate (insertSeq InMemoryNodeRepository.emptyRepo 1
        [(c2pa, 1), (c2pb, 2), (c2pc, 3)]) 1 "note" 2 3 none).flatten
      = [(c2pa, (1 : Timestamp)), (c2pb, 2), (c2pc, 3)].map
          (fun p => adjustNode 1 p.1 p.2) ∧
     (insertSeq InMemoryNodeRepository.emptyRepo 1
        [(c2pa, 1), (c2pb, 2), (c2pc, 3)]).query_by_kind 1 "note"
          ([(c2pa, (1 : Timestamp)), (c2pb, 2), (c2pc, 3)].length) none
      = [(c2pa, (1 : Timestamp)), (c2pb, 2), (c2pc, 3)].map
          (fun p => adjustNode 1 p.1 p.2)) :=
  C2_keyset_pagination.2.2.2 1 "note" 2 [(c2pa, 1), (c2pb, 2), (c2pc, 3)] 3
    (by decide) (by decide) (by decide) (by decide) (by decide)

end SynaGraph
